import Mathlib

/-!
Verification of the session/history emulation layer of the claude-core
repository: an in-memory conversation store (sessions, forking,
checkpoints, response cache), a prompt-construction algorithm, a
subprocess timeout state machine, an output sanitizer, and the tool
allow/deny policy resolution.

The definitions below are shallow embeddings of the TypeScript source:

* `ToolManager.getAvailableTools` / the restriction model come from
  `src/implementations/ToolManager.ts`;
* `SessionStore` (saveSession, addMessage, forkSession,
  getConversationHistory, cacheResponse, getCachedResponse,
  createCheckpoint, restoreCheckpoint) comes from `SessionStore.ts`.
  JavaScript object aliasing matters for the claims about forking and
  checkpoints, so message records and the mutable arrays inside them
  (`childMessageIds`, `context.history`) live in an explicit heap:
  records are cells addressed by `Nat` references and the two kinds of
  mutable arrays are separate reference-addressed cells.  A shallow
  object spread (`{...msg}`) therefore copies the reference to the
  `childMessageIds` array rather than its contents, exactly as in the
  source.  `Date`-valued metadata that no claim inspects is either
  dropped or carried as an integer timestamp supplied by the caller
  (`Date.now()` is modelled as an explicit argument), and the
  random/clock-based fresh id generation for forked sessions and
  checkpoints is modelled by a counter in the store.
* `determineTimeout`, `buildContextualPrompt`, the output sanitizing
  pipeline inside `execute()`, and the timeout escalation state machine
  come from `StatelessClaudeSession.ts`; `extractContent` comes from
  `utils/output-parser.ts`.
* String operations (`trim`, `indexOf`, `startsWith`, `substring`,
  `toLowerCase`, regex replacement of `<tool_use>...</tool_use>`
  blocks) are modelled over `List Char` with JavaScript semantics; the
  whitespace set is the ASCII part of the JavaScript one, which covers
  every string the source manipulates.
-/

namespace ClaudeCore

/-- Explicit success/failure result, the shape of the `IResult` values the
source returns; failures carry the error message. -/
inductive RRes (α : Type) where
  | success (value : α)
  | failure (msg : String)
deriving DecidableEq

/-- Whether a result is a success. -/
def RRes.isSuccess {α : Type} : RRes α → Bool
  | .success _ => true
  | .failure _ => false

/-! ## JavaScript string primitives over `List Char` -/

/-- ASCII JavaScript whitespace (the characters `trim` removes that can
occur in the strings this program manipulates). -/
def jsWs (c : Char) : Bool :=
  c = ' ' ∨ c = '\t' ∨ c = '\n' ∨ c = '\r' ∨ c = '\x0b' ∨ c = '\x0c'

/-- Drop leading JavaScript whitespace. -/
def dropLeadWs (s : List Char) : List Char := s.dropWhile jsWs

/-- `String.prototype.trim`: drop whitespace from both ends. -/
def trimL (s : List Char) : List Char :=
  ((s.dropWhile jsWs).reverse.dropWhile jsWs).reverse

/-- `String.prototype.startsWith` on char lists: does `s` start with `p`? -/
def startsWithL (p s : List Char) : Bool :=
  match p, s with
  | [], _ => true
  | _ :: _, [] => false
  | a :: p', b :: s' => a = b && startsWithL p' s'

/-- `String.prototype.indexOf` on char lists: index of the first
occurrence of `p` in `s`, or `none` (JavaScript's `-1`). -/
def findIdxOfL (p : List Char) : List Char → Option Nat
  | [] => if startsWithL p [] then some 0 else none
  | c :: rest =>
    if startsWithL p (c :: rest) then some 0
    else (findIdxOfL p rest).map (· + 1)

/-- `String.prototype.includes`. -/
def containsL (p s : List Char) : Bool := (findIdxOfL p s).isSome

/-- `String.prototype.toLowerCase` (ASCII). -/
def lowerL (s : List Char) : List Char := s.map Char.toLower

/-! ## ToolManager (`src/implementations/ToolManager.ts`) -/

/-- A tool restriction rule is either an allow rule or a deny rule. -/
inductive RestrictionType where
  | allow
  | deny
deriving DecidableEq

/-- One allow/deny rule over a list of tool names. -/
structure ToolRestriction where
  rtype : RestrictionType
  tools : List String
deriving DecidableEq

/-- The set (as a list) of tool names appearing in allow rules, built the
way the source fills its `allowedTools` set. -/
def allowedNames (rs : List ToolRestriction) : List String :=
  rs.foldl (fun acc r =>
    match r.rtype with
    | .allow => acc ++ r.tools
    | .deny => acc) []

/-- The set (as a list) of tool names appearing in deny rules (the
source's `else` branch collects every non-allow rule). -/
def deniedNames (rs : List ToolRestriction) : List String :=
  rs.foldl (fun acc r =>
    match r.rtype with
    | .allow => acc
    | .deny => acc ++ r.tools) []

/-- `ToolManager.getAvailableTools`, with the registered tools given as
their (insertion-ordered, name-keyed) name list. -/
def getAvailableTools (tools : List String) (rs : List ToolRestriction) : List String :=
  if rs = [] then tools
  else
    let allowed := allowedNames rs
    let denied := deniedNames rs
    tools.filter fun t =>
      if denied.contains t then false
      else if allowed.length > 0 then allowed.contains t
      else true

/-- Availability as claim C7 words it: available unless the tool appears
in a deny rule; if at least one allow *rule* exists, the tool must appear
in some allow rule. -/
def availableClaim (rs : List ToolRestriction) (t : String) : Bool :=
  if rs.any (fun r => r.rtype = .deny && r.tools.contains t) then false
  else if rs.any (fun r => r.rtype = .allow) then
    rs.any (fun r => r.rtype = .allow && r.tools.contains t)
  else true

/-- Availability as amended: the allow-list requirement only kicks in
when the allow rules collectively name at least one tool (the source
tests `allowedTools.size > 0`, not the existence of an allow rule). -/
def availableAmended (rs : List ToolRestriction) (t : String) : Bool :=
  if rs.any (fun r => r.rtype = .deny && r.tools.contains t) then false
  else if rs.any (fun r => r.rtype = .allow && !r.tools.isEmpty) then
    rs.any (fun r => r.rtype = .allow && r.tools.contains t)
  else true

lemma mem_allowedNames_aux (rs : List ToolRestriction) (init : List String) (t : String) :
    t ∈ rs.foldl (fun acc r =>
        match r.rtype with
        | .allow => acc ++ r.tools
        | .deny => acc) init ↔
      t ∈ init ∨ ∃ r ∈ rs, r.rtype = .allow ∧ t ∈ r.tools := by
  induction rs generalizing init with
  | nil => simp
  | cons r rs ih =>
    simp only [List.foldl_cons]
    cases hr : r.rtype
    · rw [ih]
      simp only [List.mem_append, List.mem_cons]
      constructor
      · rintro ((h | h) | ⟨q, hq, hfq, ht⟩)
        · exact Or.inl h
        · exact Or.inr ⟨r, Or.inl rfl, hr, h⟩
        · exact Or.inr ⟨q, Or.inr hq, hfq, ht⟩
      · rintro (h | ⟨q, (rfl | hq), hfq, ht⟩)
        · exact Or.inl (Or.inl h)
        · exact Or.inl (Or.inr ht)
        · exact Or.inr ⟨q, hq, hfq, ht⟩
    · rw [ih]
      simp only [List.mem_cons]
      constructor
      · rintro (h | ⟨q, hq, hfq, ht⟩)
        · exact Or.inl h
        · exact Or.inr ⟨q, Or.inr hq, hfq, ht⟩
      · rintro (h | ⟨q, (rfl | hq), hfq, ht⟩)
        · exact Or.inl h
        · rw [hr] at hfq; exact absurd hfq (by simp)
        · exact Or.inr ⟨q, hq, hfq, ht⟩

lemma mem_allowedNames (rs : List ToolRestriction) (t : String) :
    t ∈ allowedNames rs ↔ ∃ r ∈ rs, r.rtype = .allow ∧ t ∈ r.tools := by
  rw [allowedNames, mem_allowedNames_aux]
  simp

lemma mem_deniedNames_aux (rs : List ToolRestriction) (init : List String) (t : String) :
    t ∈ rs.foldl (fun acc r =>
        match r.rtype with
        | .allow => acc
        | .deny => acc ++ r.tools) init ↔
      t ∈ init ∨ ∃ r ∈ rs, r.rtype = .deny ∧ t ∈ r.tools := by
  induction rs generalizing init with
  | nil => simp
  | cons r rs ih =>
    simp only [List.foldl_cons]
    cases hr : r.rtype
    · rw [ih]
      simp only [List.mem_cons]
      constructor
      · rintro (h | ⟨q, hq, hfq, ht⟩)
        · exact Or.inl h
        · exact Or.inr ⟨q, Or.inr hq, hfq, ht⟩
      · rintro (h | ⟨q, (rfl | hq), hfq, ht⟩)
        · exact Or.inl h
        · rw [hr] at hfq; exact absurd hfq (by simp)
        · exact Or.inr ⟨q, hq, hfq, ht⟩
    · rw [ih]
      simp only [List.mem_append, List.mem_cons]
      constructor
      · rintro ((h | h) | ⟨q, hq, hfq, ht⟩)
        · exact Or.inl h
        · exact Or.inr ⟨r, Or.inl rfl, hr, h⟩
        · exact Or.inr ⟨q, Or.inr hq, hfq, ht⟩
      · rintro (h | ⟨q, (rfl | hq), hfq, ht⟩)
        · exact Or.inl (Or.inl h)
        · exact Or.inl (Or.inr ht)
        · exact Or.inr ⟨q, hq, hfq, ht⟩

lemma mem_deniedNames (rs : List ToolRestriction) (t : String) :
    t ∈ deniedNames rs ↔ ∃ r ∈ rs, r.rtype = .deny ∧ t ∈ r.tools := by
  rw [deniedNames, mem_deniedNames_aux]
  simp

lemma allowedNames_eq_nil_aux (rs : List ToolRestriction) (init : List String) :
    rs.foldl (fun acc r =>
        match r.rtype with
        | .allow => acc ++ r.tools
        | .deny => acc) init = [] ↔
      init = [] ∧ ∀ r ∈ rs, r.rtype = .allow → r.tools = [] := by
  induction rs generalizing init with
  | nil => simp
  | cons r rs ih =>
    simp only [List.foldl_cons]
    cases hr : r.rtype
    · rw [ih]
      simp only [List.append_eq_nil, List.mem_cons]
      constructor
      · rintro ⟨⟨h1, h2⟩, h3⟩
        refine ⟨h1, ?_⟩
        rintro q (rfl | hq) hfq
        · exact h2
        · exact h3 q hq hfq
      · rintro ⟨h1, h2⟩
        exact ⟨⟨h1, h2 r (Or.inl rfl) hr⟩, fun q hq hfq => h2 q (Or.inr hq) hfq⟩
    · rw [ih]
      simp only [List.mem_cons]
      constructor
      · rintro ⟨h1, h2⟩
        refine ⟨h1, ?_⟩
        rintro q (rfl | hq) hfq
        · rw [hr] at hfq; exact absurd hfq (by simp)
        · exact h2 q hq hfq
      · rintro ⟨h1, h2⟩
        exact ⟨h1, fun q hq hfq => h2 q (Or.inr hq) hfq⟩

lemma allowedNames_eq_nil (rs : List ToolRestriction) :
    allowedNames rs = [] ↔ ∀ r ∈ rs, r.rtype = .allow → r.tools = [] := by
  rw [allowedNames, allowedNames_eq_nil_aux]
  simp

lemma availablePred_bridge (rs : List ToolRestriction) (t : String) :
    (if (deniedNames rs).contains t then false
     else if (allowedNames rs).length > 0 then (allowedNames rs).contains t
     else true)
      = availableAmended rs t := by
  simp only [availableAmended]
  by_cases hd : t ∈ deniedNames rs
  · have hc1 : (deniedNames rs).contains t = true := by simpa using hd
    have hd1 : rs.any (fun r => r.rtype = .deny && r.tools.contains t) = true := by
      rcases (mem_deniedNames rs t).1 hd with ⟨q, hq, hty, htl⟩
      rw [List.any_eq_true]
      exact ⟨q, hq, by simp [hty, htl]⟩
    rw [if_pos hc1, if_pos hd1]
  · have hc1 : ¬((deniedNames rs).contains t = true) := by simpa using hd
    have hd1 : ¬(rs.any (fun r => r.rtype = .deny && r.tools.contains t) = true) := by
      intro hc
      rcases List.any_eq_true.1 hc with ⟨q, hq, hqq⟩
      simp only [Bool.and_eq_true, decide_eq_true_eq] at hqq
      exact hd ((mem_deniedNames rs t).2 ⟨q, hq, hqq.1, by simpa using hqq.2⟩)
    rw [if_neg hc1, if_neg hd1]
    by_cases ha : allowedNames rs = []
    · have hc2 : ¬((allowedNames rs).length > 0) := by simp [ha]
      have hd2 : ¬(rs.any (fun r => r.rtype = .allow && !r.tools.isEmpty) = true) := by
        intro hc
        rcases List.any_eq_true.1 hc with ⟨q, hq, hqq⟩
        simp only [Bool.and_eq_true, decide_eq_true_eq, Bool.not_eq_true',
          List.isEmpty_eq_false] at hqq
        exact hqq.2 ((allowedNames_eq_nil rs).1 ha q hq hqq.1)
      rw [if_neg hc2, if_neg hd2]
    · have hc2 : (allowedNames rs).length > 0 := by
        simp only [gt_iff_lt, List.length_pos]
        exact ha
      have hd2 : rs.any (fun r => r.rtype = .allow && !r.tools.isEmpty) = true := by
        rcases List.exists_mem_of_ne_nil _ ha with ⟨t0, ht0⟩
        rcases (mem_allowedNames rs t0).1 ht0 with ⟨q, hq, hty, htl⟩
        rw [List.any_eq_true]
        refine ⟨q, hq, ?_⟩
        simp only [Bool.and_eq_true, decide_eq_true_eq, Bool.not_eq_true',
          List.isEmpty_eq_false]
        refine ⟨hty, ?_⟩
        rintro hnil
        rw [hnil] at htl
        simp at htl
      rw [if_pos hc2, if_pos hd2]
      by_cases hm : t ∈ allowedNames rs
      · have h1 : (allowedNames rs).contains t = true := by simpa using hm
        rw [h1]
        symm
        rw [List.any_eq_true]
        rcases (mem_allowedNames rs t).1 hm with ⟨q, hq, hty, htl⟩
        exact ⟨q, hq, by simp [hty, htl]⟩
      · have h1 : (allowedNames rs).contains t = false := by simpa using hm
        rw [h1]
        symm
        rw [Bool.eq_false_iff]
        intro hc
        rcases List.any_eq_true.1 hc with ⟨q, hq, hqq⟩
        simp only [Bool.and_eq_true, decide_eq_true_eq] at hqq
        exact hm ((mem_allowedNames rs t).2 ⟨q, hq, hqq.1, by simpa using hqq.2⟩)

/-- Claim C7: the code resolves availability by the amended rule (deny
wins; the allow requirement applies when the allow rules collectively
name at least one tool), and on the spec's example allow=[A,B],
deny=[B] the available set is exactly {A}. -/
theorem toolPolicy_resolution :
    (∀ (tools : List String) (rs : List ToolRestriction),
        getAvailableTools tools rs = tools.filter (availableAmended rs)) ∧
      getAvailableTools ["A", "B"]
        [⟨.allow, ["A", "B"]⟩, ⟨.deny, ["B"]⟩] = ["A"] := by
  constructor
  · intro tools rs
    by_cases hrs : rs = []
    · subst hrs
      rw [getAvailableTools, if_pos rfl]
      symm
      rw [List.filter_eq_self]
      intro a _
      simp [availableAmended]
    · rw [getAvailableTools, if_neg hrs]
      apply List.filter_congr
      intro t _
      exact availablePred_bridge rs t
  · decide

/-- Claim C7 counterexample: with a single allow rule naming no tools,
the code resolves tool A as available although the claim's rule (an
allow rule exists, so A must appear in one) says it is unavailable. -/
theorem toolPolicy_claim_counterexample :
    (getAvailableTools ["A"] [⟨.allow, []⟩]).contains "A" = true ∧
      availableClaim [⟨.allow, []⟩] "A" = false := by
  constructor
  · decide
  · decide

/-! ## Timeout constants (`src/constants/defaults.ts`) -/

def STANDARD_REQUEST : Int := 120000
def QUICK_REQUEST : Int := 30000
def COMPLEX_REQUEST : Int := 300000
def TOOL_HEAVY_REQUEST : Int := 600000
def KILL_GRACE_PERIOD : Int := 5000
def TEXT_GENERATION : Int := STANDARD_REQUEST
def CODE_GENERATION : Int := COMPLEX_REQUEST
def FILE_OPERATIONS : Int := COMPLEX_REQUEST
def SYSTEM_COMMANDS : Int := TOOL_HEAVY_REQUEST
def QUICK_RESPONSE : Int := QUICK_REQUEST

/-! ## Timeout selection (`StatelessClaudeSession.determineTimeout`) -/

/-- The `operationType` hint of `ExecuteOptions`. -/
inductive OperationType where
  | quick
  | text
  | code
  | file
  | system
deriving DecidableEq

/-- The fixed duration table indexed by operation type
(`OPERATION_TIMEOUTS`). -/
def opTimeout : OperationType → Int
  | .quick => QUICK_RESPONSE
  | .text => TEXT_GENERATION
  | .code => CODE_GENERATION
  | .file => FILE_OPERATIONS
  | .system => SYSTEM_COMMANDS

/-- The `ExecuteOptions` fields `determineTimeout` inspects. -/
structure ExecOptions where
  timeout : Option Int
  operationType : Option OperationType
  tools : Option (List String)
deriving DecidableEq

def quickKeys : List (List Char) :=
  ["yes or no".data, "true or false".data, "single word".data]

def codeKeys : List (List Char) :=
  ["write code".data, "implement".data, "function".data, "class".data,
    "debug".data]

def fileKeys : List (List Char) :=
  ["edit".data, "create file".data, "modify".data, "write to".data]

def sysKeys : List (List Char) :=
  ["run".data, "execute".data, "bash".data, "command".data]

/-- `StatelessClaudeSession.determineTimeout`: explicit timeout, then the
operation-type table, then keyword heuristics over the lowercased prompt,
then the tools-list check, then the session default. -/
def determineTimeout (dflt : Int) (prompt : String) (opts : Option ExecOptions) : Int :=
  match opts.bind ExecOptions.timeout with
  | some t => t
  | none =>
    match opts.bind ExecOptions.operationType with
    | some op => opTimeout op
    | none =>
      let lp := lowerL prompt.data
      if quickKeys.any (fun k => containsL k lp) then QUICK_RESPONSE
      else if codeKeys.any (fun k => containsL k lp) then CODE_GENERATION
      else if fileKeys.any (fun k => containsL k lp) then FILE_OPERATIONS
      else if sysKeys.any (fun k => containsL k lp) then SYSTEM_COMMANDS
      else
        match opts.bind ExecOptions.tools with
        | some ts => if ts.length > 0 then COMPLEX_REQUEST else dflt
        | none => dflt

/-- First defined value in the list, or the default: the shape of the
amended precedence-order specification. -/
def firstSomeD : List (Option Int) → Int → Int
  | [], d => d
  | some x :: _, _ => x
  | none :: rest, d => firstSomeD rest d

/-- Keyword heuristic over the prompt, as an optional resolution step. -/
def keywordHeuristic (prompt : String) : Option Int :=
  let lp := lowerL prompt.data
  if quickKeys.any (fun k => containsL k lp) then some QUICK_RESPONSE
  else if codeKeys.any (fun k => containsL k lp) then some CODE_GENERATION
  else if fileKeys.any (fun k => containsL k lp) then some FILE_OPERATIONS
  else if sysKeys.any (fun k => containsL k lp) then some SYSTEM_COMMANDS
  else none

/-- Tools-list resolution step: a non-empty tools list selects the
complex-request duration. -/
def toolsHint (opts : Option ExecOptions) : Option Int :=
  match opts.bind ExecOptions.tools with
  | some ts => if ts.length > 0 then some COMPLEX_REQUEST else none
  | none => none

/-- Amended claim C5 as a specification: the effective timeout is the
first defined value among explicit timeout, operation-type table entry,
keyword heuristic, tools hint, and otherwise the session default. -/
def resolveTimeoutSpec (dflt : Int) (prompt : String) (opts : Option ExecOptions) : Int :=
  firstSomeD
    [opts.bind ExecOptions.timeout,
      (opts.bind ExecOptions.operationType).map opTimeout,
      keywordHeuristic prompt,
      toolsHint opts] dflt

/-! ## Timeout escalation state machine (`execute()` timer handling) -/

/-- Signals the timeout path can send. -/
inductive Sig where
  | sigterm
  | sigkill
deriving DecidableEq

/-- How the promise returned by `execute()` was settled. -/
inductive Resolution where
  | timeoutFailure
  | exitFailure (code : Int)
  | spawnFailure
  | resolvedSuccess
deriving DecidableEq

/-- State of one `execute()` invocation's timers and child process.
`killedFlag` is Node's `ChildProcess.killed`: set when a signal was
successfully *sent*, not when the process died. -/
structure ProcSt where
  mainTimerActive : Bool
  graceTimerActive : Bool
  isTimedOut : Bool
  killedFlag : Bool
  exited : Bool
  signalsSent : List Sig
  resolution : Option Resolution
deriving DecidableEq

/-- Timer setup at the start of `execute()`: the main timer is scheduled
only when the effective timeout is positive. -/
def procInit (timeout : Int) : ProcSt :=
  { mainTimerActive := decide (timeout > 0)
    graceTimerActive := false
    isTimedOut := false
    killedFlag := false
    exited := false
    signalsSent := []
    resolution := none }

/-- Events that can be delivered to one invocation: a pending timer
firing, process exit, or a process error. -/
inductive ProcEv where
  | mainTimerFires
  | graceTimerFires
  | procExit (code : Int)
  | procError
deriving DecidableEq

/-- One event of the `execute()` timeout state machine, following the
source: the main-timer callback sets `isTimedOut`, sends SIGTERM (which
sets `killed`) and schedules the grace timer; the grace-timer callback
returns early when `killed` is already set, otherwise sends SIGKILL; the
`exit` and `error` handlers clear both timers and resolve. -/
def procStep (s : ProcSt) (e : ProcEv) : ProcSt :=
  match e with
  | .mainTimerFires =>
    if s.mainTimerActive then
      let s1 := { s with mainTimerActive := false, isTimedOut := true }
      let s2 :=
        if s1.exited then s1
        else { s1 with signalsSent := s1.signalsSent ++ [Sig.sigterm], killedFlag := true }
      { s2 with graceTimerActive := true }
    else s
  | .graceTimerFires =>
    if s.graceTimerActive then
      let s1 := { s with graceTimerActive := false }
      if s1.killedFlag then s1
      else if s1.exited then s1
      else { s1 with signalsSent := s1.signalsSent ++ [Sig.sigkill], killedFlag := true }
    else s
  | .procExit code =>
    if s.exited ∨ s.resolution.isSome then s
    else
      let res :=
        if s.isTimedOut then Resolution.timeoutFailure
        else if code ≠ 0 then Resolution.exitFailure code
        else Resolution.resolvedSuccess
      { s with
          exited := true
          mainTimerActive := false
          graceTimerActive := false
          resolution := some res }
  | .procError =>
    if s.resolution.isSome then s
    else
      { s with
          mainTimerActive := false
          graceTimerActive := false
          resolution := some Resolution.spawnFailure }

/-- Run the state machine from `procInit t` over a list of events. -/
def procRun (t : Int) (evs : List ProcEv) : ProcSt :=
  evs.foldl procStep (procInit t)

/-- Claim C4: with timeout 1000 and a process that ignores SIGTERM and
never exits, the main timer fires (SIGTERM is sent) and then the grace
timer fires, but no SIGKILL is ever sent — the grace callback sees
Node's `killed` flag already true from the successful SIGTERM send and
returns — and the call never resolves, contradicting the claimed
SIGTERM-then-SIGKILL escalation and guaranteed Timeout resolution. -/
theorem timeoutEscalation_sigkill_never_sent :
    (procRun 1000 [ProcEv.mainTimerFires, ProcEv.graceTimerFires]).signalsSent
        = [Sig.sigterm] ∧
      (procRun 1000 [ProcEv.mainTimerFires, ProcEv.graceTimerFires]).resolution
        = none ∧
      (procRun 1000 [ProcEv.mainTimerFires, ProcEv.graceTimerFires]).graceTimerActive
        = false := by
  decide

lemma determineTimeout_eq_spec (dflt : Int) (prompt : String)
    (opts : Option ExecOptions) :
    determineTimeout dflt prompt opts = resolveTimeoutSpec dflt prompt opts := by
  rw [determineTimeout, resolveTimeoutSpec]
  cases ht : opts.bind ExecOptions.timeout with
  | some t => simp only [firstSomeD]
  | none =>
    cases ho : opts.bind ExecOptions.operationType with
    | some op => simp only [firstSomeD]
    | none =>
      simp only [firstSomeD, keywordHeuristic]
      by_cases h1 : quickKeys.any (fun k => containsL k (lowerL prompt.data)) = true
      · rw [if_pos h1, if_pos h1]
        simp only [firstSomeD]
      · rw [if_neg h1, if_neg h1]
        by_cases h2 : codeKeys.any (fun k => containsL k (lowerL prompt.data)) = true
        · rw [if_pos h2, if_pos h2]
          simp only [firstSomeD]
        · rw [if_neg h2, if_neg h2]
          by_cases h3 : fileKeys.any (fun k => containsL k (lowerL prompt.data)) = true
          · rw [if_pos h3, if_pos h3]
            simp only [firstSomeD]
          · rw [if_neg h3, if_neg h3]
            by_cases h4 : sysKeys.any (fun k => containsL k (lowerL prompt.data)) = true
            · rw [if_pos h4, if_pos h4]
              simp only [firstSomeD]
            · rw [if_neg h4, if_neg h4]
              simp only [firstSomeD, toolsHint]
              cases hts : opts.bind ExecOptions.tools with
              | some ts =>
                by_cases h5 : ts.length > 0
                · simp [firstSomeD, h5]
                · simp [firstSomeD, h5]
              | none => simp [firstSomeD]

/-- Claim C5 (amended): the effective timeout resolves in the order
explicit caller timeout, operation-type table, keyword heuristics,
non-empty tools list (complex-request duration), session default; an
explicit timeout of 0 is returned as is and a timeout of 0 schedules no
termination timer. -/
theorem timeoutResolution :
    (∀ (dflt : Int) (prompt : String) (opts : Option ExecOptions),
        determineTimeout dflt prompt opts = resolveTimeoutSpec dflt prompt opts) ∧
      (∀ (dflt : Int) (prompt : String) (ot : Option OperationType)
          (ts : Option (List String)),
          determineTimeout dflt prompt (some ⟨some 0, ot, ts⟩) = 0) ∧
      (procInit 0).mainTimerActive = false ∧
      (procInit 120000).mainTimerActive = true := by
  refine ⟨determineTimeout_eq_spec, ?_, by decide, by decide⟩
  intro dflt prompt ot ts
  simp [determineTimeout]

/-- Claim C5 counterexample: with no explicit timeout, no operation
type, no matching keyword, but a non-empty tools list, the code selects
the complex-request duration (300000), not the session default
(120000) the claim prescribes. -/
theorem timeoutResolution_claim_counterexample :
    determineTimeout 120000 "hello" (some ⟨none, none, some ["Bash"]⟩) ≠ 120000 := by
  decide

/-! ## Messages and the prompt builder
(`StatelessClaudeSession.buildContextualPrompt`) -/

/-- Message roles. -/
inductive Role where
  | user
  | assistant
  | system
deriving DecidableEq

/-- A conversation message: role, content, and the caller-supplied
timestamp (`Date` modelled as an integer). -/
structure Message where
  role : Role
  content : String
  timestamp : Int
deriving DecidableEq

/-- `Array.prototype.join(sep)`. -/
def joinParts (sep : String) : List String → String
  | [] => ""
  | [a] => a
  | a :: b :: r => a ++ sep ++ joinParts sep (b :: r)

/-- Plain concatenation of a list of strings. -/
def strJoin : List String → String
  | [] => ""
  | a :: r => a ++ strJoin r

/-- The per-message parts the history loop pushes: a labelled line plus
an empty separator part for user/assistant messages, and only the empty
separator part for system messages. -/
def renderParts (msgs : List Message) : List String :=
  msgs.flatMap fun m =>
    match m.role with
    | .user => ["Human: " ++ m.content, ""]
    | .assistant => ["Assistant: " ++ m.content, ""]
    | .system => [""]

/-- `StatelessClaudeSession.buildContextualPrompt`: optional system part,
history parts, the new user turn, an empty part, the "Assistant:" cue,
all joined with a newline. -/
def buildContextualPrompt (sys : Option String) (msgs : List Message) (u : String) : String :=
  joinParts "
"
    ((match sys with
      | some sp => ["System: " ++ sp, ""]
      | none => []) ++
      renderParts msgs ++
      ["Human: " ++ u, "", "Assistant:"])

/-- The payload as claim C9 words it: system instruction then a blank
separator; each prior user/assistant message rendered as a single
"<Label>: <content>" part with system entries skipped entirely; the new
user turn; a blank; the "Assistant:" cue; joined with newlines. -/
def buildPromptClaim (sys : Option String) (msgs : List Message) (u : String) : String :=
  joinParts "
"
    ((match sys with
      | some sp => ["System: " ++ sp, ""]
      | none => []) ++
      (msgs.filterMap fun m =>
        match m.role with
        | .user => some ("Human: " ++ m.content)
        | .assistant => some ("Assistant: " ++ m.content)
        | .system => none) ++
      ["Human: " ++ u, "", "Assistant:"])

/-- One history message as rendered in the payload, amended: every
rendered message is followed by a blank separator line, and a skipped
system entry still contributes a bare separator line. -/
def renderMsgSpec (m : Message) : String :=
  match m.role with
  | .user => "Human: " ++ m.content ++ "\n\n"
  | .assistant => "Assistant: " ++ m.content ++ "\n\n"
  | .system => "\n"

/-- The payload as amended: system instruction block (when present),
then the rendered history with its separators, then
"Human: <input>", a blank line and the trailing "Assistant:" cue. -/
def buildPromptSpecAmended (sys : Option String) (msgs : List Message) (u : String) : String :=
  (match sys with
    | some sp => "System: " ++ sp ++ "\n\n"
    | none => "") ++
    strJoin (msgs.map renderMsgSpec) ++
    ("Human: " ++ u ++ "\n\nAssistant:")

lemma strJoin_append (a b : List String) :
    strJoin (a ++ b) = strJoin a ++ strJoin b := by
  induction a with
  | nil => simp [strJoin, String.empty_append]
  | cons x xs ih => simp [strJoin, ih, String.append_assoc]

lemma joinParts_cons_of_ne (a : String) (l : List String) (h : l ≠ []) :
    joinParts "\n" (a :: l) = a ++ "\n" ++ joinParts "\n" l := by
  cases l with
  | nil => exact absurd rfl h
  | cons b r => rfl

lemma joinParts_append (xs r : List String) (h : r ≠ []) :
    joinParts "\n" (xs ++ r) =
      strJoin (xs.map (fun p => p ++ "\n")) ++ joinParts "\n" r := by
  induction xs with
  | nil => simp [strJoin, String.empty_append]
  | cons x xs ih =>
    have hne : xs ++ r ≠ [] := by
      intro hc
      rcases List.append_eq_nil.1 hc with ⟨h1, h2⟩
      exact h h2
    rw [List.cons_append, joinParts_cons_of_ne x (xs ++ r) hne, ih]
    simp [strJoin, String.append_assoc]

lemma nl_nl_append (x : String) :
    ("\n" : String) ++ ("\n" ++ x) = "\n\n" ++ x := by
  rw [← String.append_assoc]
  rfl

lemma renderParts_join (msgs : List Message) :
    strJoin ((renderParts msgs).map (fun p => p ++ "\n")) =
      strJoin (msgs.map renderMsgSpec) := by
  induction msgs with
  | nil => rfl
  | cons m ms ih =>
    simp only [renderParts] at ih ⊢
    rw [List.flatMap_cons, List.map_append, strJoin_append, ih,
      List.map_cons, strJoin]
    cases hr : m.role <;>
      simp [renderMsgSpec, hr, strJoin, String.append_assoc,
        String.append_empty, String.empty_append, nl_nl_append]

/-- Claim C9 (amended): for every configured system prompt, stored
history and new user input, the payload built by the code equals the
amended format: system block first, each prior user/assistant message as
"<Label>: <content>" followed by a blank separator line with system
entries contributing only the separator line, then the new Human turn,
a blank line and the trailing "Assistant:" cue — message contents
reproduced verbatim, in order. -/
theorem buildContextualPrompt_spec :
    ∀ (sys : Option String) (msgs : List Message) (u : String),
      buildContextualPrompt sys msgs u = buildPromptSpecAmended sys msgs u := by
  intro sys msgs u
  unfold buildContextualPrompt buildPromptSpecAmended
  rw [List.append_assoc]
  have hmid : renderParts msgs ++ ["Human: " ++ u, "", "Assistant:"] ≠ [] := by
    intro hc
    rcases List.append_eq_nil.1 hc with ⟨h1, h2⟩
    simp at h2
  rw [joinParts_append _ _ hmid,
    joinParts_append _ _
      (by simp : (["Human: " ++ u, "", "Assistant:"] : List String) ≠ []),
    renderParts_join]
  have htail : joinParts "\n" ["Human: " ++ u, "", "Assistant:"]
      = "Human: " ++ u ++ "\n\nAssistant:" := by
    simp [joinParts, String.append_assoc, String.empty_append, nl_nl_append,
      show ("\n" : String) ++ "Assistant:" = "\nAssistant:" from rfl,
      show ("\n\n" : String) ++ "Assistant:" = "\n\nAssistant:" from rfl]
  rw [htail]
  cases sys with
  | none => simp [strJoin, String.empty_append, String.append_assoc]
  | some sp =>
    simp [strJoin, String.append_assoc, String.append_empty,
      String.empty_append, nl_nl_append]

/-- Claim C9 counterexample: with history [user "a", system "s"] the
code's payload ("Human: a" followed by two separator lines) differs from
the claim's payload (no separator after the rendered message and nothing
for the skipped system entry). -/
theorem buildContextualPrompt_claim_counterexample :
    buildContextualPrompt none
        [⟨Role.user, "a", 0⟩, ⟨Role.system, "s", 0⟩] "u" ≠
      buildPromptClaim none
        [⟨Role.user, "a", 0⟩, ⟨Role.system, "s", 0⟩] "u" := by
  decide

/-! ## Output sanitizer
(`OutputParser.extractContent` plus the cleanup steps of `execute()`) -/

/-- `OutputParser` buffer capacity (1 MiB). -/
def bufSize : Nat := 1048576

def openTagL : List Char := "<tool_use>".data

def closeTagL : List Char := "</tool_use>".data

/-- Fuel-indexed global replacement of lazy `<tool_use>...</tool_use>`
matches by the empty string, with JavaScript `replace` semantics: find
the first open tag, then the first close tag after it; a match needs
both; scanning resumes after the removed span in the original string.
Each recursive call strictly shortens the string, so fuel equal to the
string length (as passed by `removeToolUses`) is never exhausted before
the scan finishes. -/
def removeToolUsesF : Nat → List Char → List Char
  | 0, s => s
  | fuel + 1, s =>
    match findIdxOfL openTagL s with
    | none => s
    | some i =>
      match findIdxOfL closeTagL (s.drop (i + 10)) with
      | none => s
      | some j => s.take i ++ removeToolUsesF fuel ((s.drop (i + 10)).drop (j + 11))

/-- The regex replacement in `extractContent`. -/
def removeToolUses (s : List Char) : List Char := removeToolUsesF s.length s

/-- `OutputParser.extractContent`: strip tool-use blocks, then trim. -/
def extractContent (buf : List Char) : List Char := trimL (removeToolUses buf)

/-- `OutputParser.append` on a single chunk: keep the last `bufSize`
characters when the buffer overflows. -/
def appendCap (raw : List Char) : List Char :=
  if raw.length > bufSize then raw.drop (raw.length - bufSize) else raw

/-- The markers of the long-output truncation pass in `execute()`. -/
def longMarkers : List (List Char) :=
  ["\n\nH:".data, "\n\nHuman:".data, "\n\nA:".data, "\n\nAssistant:".data,
    "\nH:".data, "\nHuman:".data, "\nA:".data, "\nAssistant:".data]

/-- The `earliestIndex` scan of the long-output truncation pass: the
smallest positive marker index, starting from the string length. -/
def earliestMarkerIdx (ms : List (List Char)) (s : List Char) : Nat :=
  ms.foldl (fun acc m =>
    match findIdxOfL m s with
    | some idx => if 0 < idx ∧ idx < acc then idx else acc
    | none => acc) s.length

/-- The suspicious-long-output truncation in `execute()`: outputs longer
than 1000 characters containing a conversation marker are cut at the
earliest positive marker index and trimmed. -/
def bigTruncate (s : List Char) : List Char :=
  if s.length > 1000 ∧ (containsL ("\n\nH:".data) s ∨ containsL ("\n\nA:".data) s
      ∨ containsL ("\nH:".data) s ∨ containsL ("\nA:".data) s) then
    if earliestMarkerIdx longMarkers s < s.length then
      trimL (s.take (earliestMarkerIdx longMarkers s))
    else s
  else s

/-- The `conversationMarkers` list of the aggressive cleanup pass, in
source order. -/
def convMarkers : List (List Char) :=
  ["\n\nH:".data, "\n\nHuman:".data, "\n\nA:".data, "\n\nAssistant:".data,
    "\n\nh:".data, "\n\na:".data, "\nH:".data, "\nHuman:".data, "\nA:".data,
    "\nAssistant:".data, "\n\nQ:".data, "\n\nQuestion:".data, "\n\nq:".data]

/-- The aggressive cleanup loop: truncate (and trim) at the first marker
in list order that occurs at a positive index, then stop. -/
def truncAtConvMarker : List (List Char) → List Char → List Char
  | [], s => s
  | m :: ms, s =>
    match findIdxOfL m s with
    | some idx => if 0 < idx then trimL (s.take idx) else truncAtConvMarker ms s
    | none => truncAtConvMarker ms s

/-- The `rolePrefixes` list of the leading-label cleanup, in source
order. -/
def roleLabels : List (List Char) :=
  ["Assistant:".data, "Human:".data, "A:".data, "H:".data,
    "assistant:".data, "human:".data, "a:".data, "h:".data,
    "Assistant: ".data, "Human: ".data, "A: ".data, "H: ".data,
    "I\x27ll respond only to your current question.".data]

/-- The leading-label cleanup loop: strip (and trim) the first matching
label, then stop. -/
def stripRoleLabel : List (List Char) → List Char → List Char
  | [], s => s
  | lb :: ps, s =>
    if startsWithL lb s then trimL (s.drop lb.length)
    else stripRoleLabel ps s

/-- The full output sanitization pipeline of `execute()` on the raw
process output: buffer the chunk, extract content, long-output
truncation, conversation-marker truncation, leading role-label strip,
final trim. -/
def sanitizeL (raw : List Char) : List Char :=
  trimL (stripRoleLabel roleLabels
    (truncAtConvMarker convMarkers
      (bigTruncate (extractContent (appendCap raw)))))

/-- The sanitizer on strings. -/
def sanitize (s : String) : String := ⟨sanitizeL s.data⟩

/-- Claim C3 counterexample: sanitizing "H:H:x" strips one leading "H:"
label and yields "H:x"; sanitizing again strips the next one, so the
sanitizer is not idempotent. -/
theorem sanitize_claim_counterexample :
    sanitize (sanitize "H:H:x") ≠ sanitize "H:H:x" := by
  decide

lemma dropWhile_head?_not (p : Char → Bool) (l : List Char) :
    ∀ c, (l.dropWhile p).head? = some c → p c = false := by
  induction l with
  | nil => intro c h; simp [List.dropWhile] at h
  | cons a r ih =>
    intro c h
    rw [List.dropWhile_cons] at h
    by_cases hp : p a = true
    · rw [if_pos hp] at h
      exact ih c h
    · rw [if_neg hp] at h
      simp only [List.head?_cons, Option.some.injEq] at h
      subst h
      exact Bool.not_eq_true _ ▸ Bool.eq_false_iff.mpr hp

lemma dropWhile_eq_self_of_head? (p : Char → Bool) (l : List Char)
    (h : ∀ c, l.head? = some c → p c = false) : l.dropWhile p = l := by
  cases l with
  | nil => rfl
  | cons a r =>
    rw [List.dropWhile_cons, if_neg]
    rw [h a rfl]
    simp

lemma dropWhile_idem (p : Char → Bool) (l : List Char) :
    (l.dropWhile p).dropWhile p = l.dropWhile p :=
  dropWhile_eq_self_of_head? _ _ (dropWhile_head?_not p l)

lemma dropWhile_getLast? (p : Char → Bool) (l : List Char)
    (h : l.dropWhile p ≠ []) :
    (l.dropWhile p).getLast? = l.getLast? := by
  induction l with
  | nil => simp [List.dropWhile] at h
  | cons a r ih =>
    rw [List.dropWhile_cons] at h ⊢
    by_cases hp : p a = true
    · rw [if_pos hp] at h ⊢
      rw [ih h]
      have hr : r ≠ [] := by
        rintro rfl
        simp [List.dropWhile] at h
      cases r with
      | nil => exact absurd rfl hr
      | cons b r2 => rw [List.getLast?_cons_cons]
    · rw [if_neg hp]

lemma trimL_okHead (s : List Char) :
    ∀ c, (trimL s).head? = some c → jsWs c = false := by
  intro c h
  unfold trimL at h
  rw [List.head?_reverse] at h
  by_cases hb : List.dropWhile jsWs (List.dropWhile jsWs s).reverse = []
  · rw [hb] at h
    simp at h
  · rw [dropWhile_getLast? _ _ hb, List.getLast?_reverse] at h
    exact dropWhile_head?_not _ _ c h

lemma trimL_okLast (s : List Char) :
    ∀ c, (trimL s).getLast? = some c → jsWs c = false := by
  intro c h
  unfold trimL at h
  rw [List.getLast?_reverse] at h
  exact dropWhile_head?_not _ _ c h

lemma trimL_trimL (s : List Char) : trimL (trimL s) = trimL s := by
  have h1 : List.dropWhile jsWs (trimL s) = trimL s :=
    dropWhile_eq_self_of_head? _ _ (trimL_okHead s)
  have h2 : List.dropWhile jsWs (trimL s).reverse = (trimL s).reverse := by
    apply dropWhile_eq_self_of_head?
    intro c hc
    rw [List.head?_reverse] at hc
    exact trimL_okLast s c hc
  show ((List.dropWhile jsWs (trimL s)).reverse.dropWhile jsWs).reverse = trimL s
  rw [h1, h2, List.reverse_reverse]

lemma dropWhile_length_le (p : Char → Bool) (l : List Char) :
    (l.dropWhile p).length ≤ l.length := by
  induction l with
  | nil => simp [List.dropWhile]
  | cons a r ih =>
    rw [List.dropWhile_cons]
    by_cases hp : p a = true
    · rw [if_pos hp]
      exact le_trans ih (Nat.le_succ _)
    · rw [if_neg hp]

lemma trimL_length_le (s : List Char) : (trimL s).length ≤ s.length := by
  unfold trimL
  rw [List.length_reverse]
  refine le_trans (dropWhile_length_le _ _) ?_
  rw [List.length_reverse]
  exact dropWhile_length_le _ _

lemma removeToolUsesF_length_le (fuel : Nat) (s : List Char) :
    (removeToolUsesF fuel s).length ≤ s.length := by
  induction fuel generalizing s with
  | zero => simp [removeToolUsesF]
  | succ n ih =>
    rw [removeToolUsesF]
    cases hf : findIdxOfL openTagL s with
    | none => exact le_refl _
    | some i =>
      show (match findIdxOfL closeTagL (s.drop (i + 10)) with
        | none => s
        | some j =>
          s.take i ++ removeToolUsesF n ((s.drop (i + 10)).drop (j + 11))).length
          ≤ s.length
      cases hg : findIdxOfL closeTagL (s.drop (i + 10)) with
      | none => exact le_refl _
      | some j =>
        show (s.take i ++ removeToolUsesF n ((s.drop (i + 10)).drop (j + 11))).length
          ≤ s.length
        simp only [List.length_append, List.length_take]
        have hrec := ih ((s.drop (i + 10)).drop (j + 11))
        simp only [List.length_drop] at hrec
        omega

lemma removeToolUses_length_le (s : List Char) :
    (removeToolUses s).length ≤ s.length :=
  removeToolUsesF_length_le s.length s

lemma truncAtConvMarker_length_le (ms : List (List Char)) (s : List Char) :
    (truncAtConvMarker ms s).length ≤ s.length := by
  induction ms with
  | nil => simp [truncAtConvMarker]
  | cons m ms ih =>
    rw [truncAtConvMarker]
    cases hf : findIdxOfL m s with
    | none => exact ih
    | some idx =>
      show (if 0 < idx then trimL (s.take idx) else truncAtConvMarker ms s).length
        ≤ s.length
      by_cases hi : 0 < idx
      · rw [if_pos hi]
        refine le_trans (trimL_length_le _) ?_
        simp [List.length_take]
      · rw [if_neg hi]
        exact ih

lemma stripRoleLabel_length_le (ps : List (List Char)) (s : List Char) :
    (stripRoleLabel ps s).length ≤ s.length := by
  induction ps with
  | nil => simp [stripRoleLabel]
  | cons lb ps ih =>
    rw [stripRoleLabel]
    by_cases hp : startsWithL lb s = true
    · rw [if_pos hp]
      refine le_trans (trimL_length_le _) ?_
      simp [List.length_drop]
    · rw [if_neg hp]
      exact ih

lemma bigTruncate_length_le (s : List Char) :
    (bigTruncate s).length ≤ s.length := by
  rw [bigTruncate]
  split_ifs with h1 h2
  · refine le_trans (trimL_length_le _) ?_
    simp [List.length_take]
  · exact le_refl _
  · exact le_refl _

lemma appendCap_length_le (s : List Char) : (appendCap s).length ≤ bufSize := by
  rw [appendCap]
  split_ifs with h1
  · simp only [List.length_drop]
    omega
  · omega

lemma sanitizeL_length_le (raw : List Char) : (sanitizeL raw).length ≤ bufSize := by
  rw [sanitizeL]
  refine le_trans (trimL_length_le _) ?_
  refine le_trans (stripRoleLabel_length_le _ _) ?_
  refine le_trans (truncAtConvMarker_length_le _ _) ?_
  refine le_trans (bigTruncate_length_le _) ?_
  rw [extractContent]
  refine le_trans (trimL_length_le _) ?_
  refine le_trans (removeToolUses_length_le _) ?_
  exact appendCap_length_le _

/-- No occurrence of a marker at a positive index in `s`. -/
def markerStable (m s : List Char) : Bool :=
  match findIdxOfL m s with
  | some i => decide (i = 0)
  | none => true

lemma earliestMarkerIdx_stable (ms : List (List Char)) (s : List Char)
    (h : ∀ m ∈ ms, markerStable m s = true) :
    earliestMarkerIdx ms s = s.length := by
  unfold earliestMarkerIdx
  induction ms with
  | nil => rfl
  | cons m ms ih =>
    rw [List.foldl_cons]
    have hm := h m (List.mem_cons_self m ms)
    rw [markerStable] at hm
    cases hf : findIdxOfL m s with
    | none =>
      simp only [hf]
      exact ih (fun m2 hm2 => h m2 (List.mem_cons_of_mem _ hm2))
    | some i =>
      rw [hf] at hm
      have hi : i = 0 := by simpa using hm
      subst hi
      simp only [hf, Nat.lt_irrefl, false_and, if_neg, ite_false]
      exact ih (fun m2 hm2 => h m2 (List.mem_cons_of_mem _ hm2))

lemma bigTruncate_stable (s : List Char)
    (h : ∀ m ∈ longMarkers, markerStable m s = true) :
    bigTruncate s = s := by
  rw [bigTruncate, earliestMarkerIdx_stable _ _ h]
  split_ifs with h1 h2
  · exact absurd h2 (Nat.lt_irrefl _)
  · rfl
  · rfl

lemma truncAtConvMarker_stable (ms : List (List Char)) (s : List Char)
    (h : ∀ m ∈ ms, markerStable m s = true) :
    truncAtConvMarker ms s = s := by
  induction ms with
  | nil => rfl
  | cons m ms ih =>
    rw [truncAtConvMarker]
    have hm := h m (List.mem_cons_self m ms)
    rw [markerStable] at hm
    cases hf : findIdxOfL m s with
    | none => exact ih (fun m2 hm2 => h m2 (List.mem_cons_of_mem _ hm2))
    | some i =>
      rw [hf] at hm
      have hi : i = 0 := by simpa using hm
      subst hi
      show (if 0 < 0 then trimL (s.take 0) else truncAtConvMarker ms s) = s
      rw [if_neg (Nat.lt_irrefl 0)]
      exact ih (fun m2 hm2 => h m2 (List.mem_cons_of_mem _ hm2))

lemma stripRoleLabel_stable (ps : List (List Char)) (s : List Char)
    (h : ∀ lb ∈ ps, startsWithL lb s = false) :
    stripRoleLabel ps s = s := by
  induction ps with
  | nil => rfl
  | cons lb ps ih =>
    rw [stripRoleLabel, if_neg (by
      rw [h lb (List.mem_cons_self lb ps)]
      simp)]
    exact ih (fun lb2 hlb2 => h lb2 (List.mem_cons_of_mem _ hlb2))

lemma removeToolUses_no_tag (s : List Char)
    (h : containsL openTagL s = false) : removeToolUses s = s := by
  have hf : findIdxOfL openTagL s = none := by
    cases hf : findIdxOfL openTagL s with
    | none => rfl
    | some i =>
      rw [containsL, hf] at h
      simp at h
  rw [removeToolUses]
  cases hn : s.length with
  | zero => rw [removeToolUsesF]
  | succ n =>
    rw [removeToolUsesF, hf]

lemma appendCap_eq_self (s : List Char) (h : s.length ≤ bufSize) :
    appendCap s = s := by
  rw [appendCap, if_neg]
  omega

lemma sanitize_eq (s : String) : sanitize s = ⟨sanitizeL s.data⟩ := rfl

lemma mk_data (l : List Char) : (String.mk l).data = l := rfl

lemma sanitize_data (s : String) : (sanitize s).data = sanitizeL s.data :=
  (congrArg String.data (sanitize_eq s)).trans (mk_data _)

/-- Claim C3 (amended): the sanitizer is idempotent on every input whose
sanitized form contains no tool-use open tag, no conversation marker at
a positive index, and no leading role label; a second application can
strip further otherwise. -/
theorem sanitize_idempotent_of_stable (x : String)
    (h1 : containsL openTagL (sanitize x).data = false)
    (h2 : ∀ m ∈ longMarkers ++ convMarkers, markerStable m (sanitize x).data = true)
    (h3 : ∀ lb ∈ roleLabels, startsWithL lb (sanitize x).data = false) :
    sanitize (sanitize x) = sanitize x := by
  have htr : trimL (sanitizeL x.data) = sanitizeL x.data := by
    rw [sanitizeL]
    exact trimL_trimL _
  have hy : (sanitize x).data = sanitizeL x.data := sanitize_data x
  rw [hy] at h1 h2 h3
  have key : sanitizeL (sanitizeL x.data) = sanitizeL x.data := by
    conv =>
      left
      rw [sanitizeL]
    rw [extractContent, appendCap_eq_self _ (sanitizeL_length_le _),
      removeToolUses_no_tag _ h1, htr,
      bigTruncate_stable _ (fun m hm => h2 m (List.mem_append_left _ hm)),
      truncAtConvMarker_stable _ _ (fun m hm => h2 m (List.mem_append_right _ hm)),
      stripRoleLabel_stable _ _ h3, htr]
  rw [sanitize_eq (sanitize x), hy, key, ← sanitize_eq x]

/-- Witness for the conditional idempotence theorem at the concrete
input " hi ". -/
theorem sanitize_idempotent_of_stable_witness :
    (∀ m ∈ longMarkers ++ convMarkers,
        markerStable m (sanitize " hi ").data = true) ∧
      sanitize (sanitize " hi ") = sanitize " hi " :=
  ⟨by decide,
    sanitize_idempotent_of_stable " hi " (by decide) (by decide) (by decide)⟩

/-! ## SessionStore (`SessionStore.ts`)

Message records and the mutable arrays inside them are heap cells
addressed by `Nat` references, so that JavaScript object aliasing (and
the shallow spreads in `forkSession` and `createCheckpoint`) is modelled
exactly: a spread copies field values, and the `childMessageIds` field
value is a *reference* into the array heap.  The heaps are total
functions with a junk default outside the allocated range; the code
never dereferences an unallocated reference.  `Date`-based fresh-name
generation is modelled by the `freshCounter` field, and `Date.now()`
reads are explicit `now` arguments. -/

structure CachedResponse where
  prompt : String
  response : String
  messageId : String
  timestamp : Int
  ttl : Int
deriving DecidableEq

/-- A message record cell (`MessageWithMetadata` minus the `Date`
metadata no claim inspects): message fields plus store metadata.  The
mutable `childMessageIds` array is held by reference. -/
structure MessageCell where
  role : Role
  content : String
  timestamp : Int
  id : String
  sessionId : String
  parentMessageId : Option String
  childIdsRef : Nat
  isForkPoint : Bool
deriving DecidableEq

/-- A fork point record (timestamp dropped; no claim inspects it). -/
structure ForkPoint where
  messageId : String
  originalSessionId : String
  forkedSessionIds : List String
deriving DecidableEq

/-- A stored session.  `messageRefs` are the cell references of
`session.messages` (a JavaScript array of object references);
`historyRef` is the reference of the mutable `context.history` array,
absent when the context has no history array yet. -/
structure StoredSession where
  sid : String
  parentId : Option String
  childIds : List String
  systemPrompt : Option String
  historyRef : Option Nat
  messageRefs : List Nat
  forkPoints : List ForkPoint
  checkpointIds : List String
deriving DecidableEq

/-- A checkpoint snapshot: `{...context}` copies the system prompt value
and the history array *reference*; `[...messages]` copies the list of
cell references. -/
structure SessionSnapshot where
  snapId : String
  name : Option String
  sessionId : String
  systemPrompt : Option String
  historyRef : Option Nat
  messageRefs : List Nat
deriving DecidableEq

/-- The store state: the session map, the message index (id to cell
reference), the per-session response cache, the checkpoint map, the
three heaps, the allocation counter, the global message id counter, and
the fresh-name counter. -/
structure Store where
  sessions : String → Option StoredSession
  messageIndex : List (String × Nat)
  responseCache : String → List CachedResponse
  checkpoints : String → Option SessionSnapshot
  msgCells : Nat → MessageCell
  idArrays : Nat → List String
  msgArrays : Nat → List Message
  nextRef : Nat
  messageIdCounter : Nat
  freshCounter : Nat

/-- Point update of a `Nat`-indexed heap. -/
def updFun {α : Type} (f : Nat → α) (k : Nat) (v : α) : Nat → α :=
  fun n => if n = k then v else f n

/-- Point update of a `String`-keyed map. -/
def updStr {α : Type} (f : String → α) (k : String) (v : α) : String → α :=
  fun n => if n = k then v else f n

/-- `Map.get` on the message index. -/
def lookupIdx (mi : List (String × Nat)) (k : String) : Option Nat :=
  (mi.find? (fun p => p.1 == k)).map Prod.snd

/-- `Map.set` on the message index: replace an existing binding or
append a new one. -/
def setIdx (mi : List (String × Nat)) (k : String) (v : Nat) : List (String × Nat) :=
  match mi with
  | [] => [(k, v)]
  | q :: rest => if q.1 = k then (k, v) :: rest else q :: setIdx rest k v

def defaultCell : MessageCell :=
  { role := Role.user, content := "", timestamp := 0, id := "",
    sessionId := "", parentMessageId := none, childIdsRef := 0,
    isForkPoint := false }

/-- A freshly constructed `SessionStore`. -/
def emptyStore : Store :=
  { sessions := fun _ => none
    messageIndex := []
    responseCache := fun _ => []
    checkpoints := fun _ => none
    msgCells := fun _ => defaultCell
    idArrays := fun _ => []
    msgArrays := fun _ => []
    nextRef := 0
    messageIdCounter := 0
    freshCounter := 0 }

/-- New message ids: `msg-<sessionId>-<counter>` with the pre-increment
counter. -/
def mkMsgId (sessionId : String) (n : Nat) : String :=
  "msg-" ++ sessionId ++ "-" ++ toString n

/-- `SessionStore.saveSession`.  The context argument carries the system
prompt and the (possibly absent) history array reference; `none` stands
for the omitted context, for which the source builds `{history: []}`
(a fresh empty array). -/
def saveSession (st : Store) (sessionId : String) (parentId : Option String)
    (ctx : Option (Option String × Option Nat)) : Store × RRes Unit :=
  let stsys :=
    match ctx with
    | some q => (st, q.1, q.2)
    | none =>
      ({ st with
          msgArrays := updFun st.msgArrays st.nextRef []
          nextRef := st.nextRef + 1 }, none, some st.nextRef)
  let st1 := stsys.1
  let sess : StoredSession :=
    { sid := sessionId, parentId := parentId, childIds := [],
      systemPrompt := stsys.2.1, historyRef := stsys.2.2,
      messageRefs := [], forkPoints := [], checkpointIds := [] }
  let st2 := { st1 with sessions := updStr st1.sessions sessionId (some sess) }
  let st3 :=
    match parentId with
    | some p =>
      match st2.sessions p with
      | some ps =>
        let ps2 := { ps with childIds := ps.childIds ++ [sessionId] }
        { st2 with sessions := updStr st2.sessions p (some ps2) }
      | none => st2
    | none => st2
  (st3, RRes.success ())

/-- `SessionStore.addMessage`: fresh id, link to the previous message,
push the new id onto the previous record's `childMessageIds` array,
append the record, index it, and mirror the message into
`context.history` (allocating the array when absent). -/
def addMessage (st : Store) (sessionId : String) (m : Message) :
    Store × RRes MessageCell :=
  match st.sessions sessionId with
  | none => (st, RRes.failure ("Session " ++ sessionId ++ " not found"))
  | some session =>
    let lastRef? := session.messageRefs.getLast?
    let ctr := st.messageIdCounter + 1
    let newId := mkMsgId sessionId ctr
    let childRef := st.nextRef
    let cellRef := st.nextRef + 1
    let cell : MessageCell :=
      { role := m.role, content := m.content, timestamp := m.timestamp,
        id := newId, sessionId := sessionId,
        parentMessageId := lastRef?.map (fun r => (st.msgCells r).id),
        childIdsRef := childRef, isForkPoint := false }
    let st1 := { st with
        idArrays := updFun st.idArrays childRef []
        msgCells := updFun st.msgCells cellRef cell
        nextRef := st.nextRef + 2
        messageIdCounter := ctr }
    let st2 :=
      match lastRef? with
      | some r =>
        let cref := (st.msgCells r).childIdsRef
        { st1 with idArrays := updFun st1.idArrays cref (st1.idArrays cref ++ [newId]) }
      | none => st1
    let sthist :=
      match session.historyRef with
      | some hr => (st2, hr)
      | none =>
        ({ st2 with
            msgArrays := updFun st2.msgArrays st2.nextRef []
            nextRef := st2.nextRef + 1 }, st2.nextRef)
    let st3 := sthist.1
    let histRef := sthist.2
    let st4 := { st3 with
        msgArrays := updFun st3.msgArrays histRef (st3.msgArrays histRef ++ [m]) }
    let sess2 := { session with
        messageRefs := session.messageRefs ++ [cellRef]
        historyRef := some histRef }
    let st5 := { st4 with
        sessions := updStr st4.sessions sessionId (some sess2)
        messageIndex := setIdx st4.messageIndex newId cellRef }
    (st5, RRes.success cell)

/-- Allocate a list of cells at consecutive fresh references. -/
def allocCells (st : Store) (cells : List MessageCell) : Store × List Nat :=
  match cells with
  | [] => (st, [])
  | c :: rest =>
    let r := st.nextRef
    let st1 := { st with msgCells := updFun st.msgCells r c, nextRef := st.nextRef + 1 }
    let str := allocCells st1 rest
    (str.1, r :: str.2)

/-- Mutate the stored session under `sid` in place (the source mutates
the object held in the map and never re-inserts it). -/
def updateSessionWith (st : Store) (sid : String) (f : StoredSession → StoredSession) :
    Store :=
  match st.sessions sid with
  | some ssn => { st with sessions := updStr st.sessions sid (some (f ssn)) }
  | none => st

/-- Flip `isForkPoint` on the record the message index holds for
`fpMsgId` (a no-op for the empty id or an unindexed id). -/
def markForkPoint (st : Store) (fpMsgId : String) : Store :=
  if fpMsgId = "" then st
  else
    match lookupIdx st.messageIndex fpMsgId with
    | some r =>
      let marked := { st.msgCells r with isForkPoint := true }
      { st with msgCells := updFun st.msgCells r marked }
    | none => st

/-- Fresh forked-session names (`Date.now()` plus a random suffix in the
source, modelled by the counter). -/
def freshForkId (st : Store) : String :=
  "session-fork-" ++ toString (st.freshCounter + 1)

/-- The fork index: the length of the message list when no message id is
given, otherwise `findIndex + 1`, with 0 (not found) reported as
`none`. -/
def forkIndexOf (st : Store) (src : StoredSession) (atMessageId : Option String) :
    Option Nat :=
  match atMessageId with
  | none => some src.messageRefs.length
  | some mid =>
    match src.messageRefs.findIdx? (fun r => (st.msgCells r).id == mid) with
    | none => none
    | some i => some (i + 1)

/-- The tail of the fork commit, after the prefix cells have been
allocated: flip `isForkPoint`, slice-allocate the history array, save
the new session, attach messages and fork points, index the new ids,
and record the fork point on the source session.  (`st2` is the store
after allocation; `newRefs`/`newCells` the allocated references and
cells.) -/
def forkCommitFinish (st2 : Store) (fromId nsid fpMsgId : String)
    (srcSys : Option String) (srcForkPoints : List ForkPoint)
    (newRefs : List Nat) (newCells : List MessageCell)
    (histList : List Message) (fp : ForkPoint) : Store :=
  let st3 := markForkPoint st2 fpMsgId
  let st4 := { st3 with
      msgArrays := updFun st3.msgArrays st3.nextRef histList
      nextRef := st3.nextRef + 1 }
  let st5 := (saveSession st4 nsid (some fromId)
    (some (srcSys, some st3.nextRef))).1
  let st6 := updateSessionWith st5 nsid (fun ns =>
    { ns with messageRefs := newRefs, forkPoints := srcForkPoints ++ [fp] })
  let st7 := { st6 with
      messageIndex := (newRefs.zip newCells).foldl
        (fun mi (q : Nat × MessageCell) => setIdx mi q.2.id q.1)
        st6.messageIndex }
  updateSessionWith st7 fromId (fun s2 =>
    { s2 with forkPoints := s2.forkPoints ++ [fp] })

/-- The fork-point message id: the given id when non-empty (JavaScript
truthiness of `atMessageId`), else the id of the last copied message,
else the empty string. -/
def forkFpMsgId (st : Store) (srcRefs : List Nat) (atMessageId : Option String) :
    String :=
  let fallbackId :=
    match srcRefs.getLast? with
    | some r => (st.msgCells r).id
    | none => ""
  match atMessageId with
  | some mid => if mid = "" then fallbackId else mid
  | none => fallbackId

/-- The copied prefix: shallow spreads of the source cells with fresh
ids under the new session id (sequential pre-increment counter). -/
def forkPrefixCells (st : Store) (nsid : String) (srcRefs : List Nat) :
    List MessageCell :=
  srcRefs.enum.map (fun q =>
    { st.msgCells q.2 with
      sessionId := nsid
      id := mkMsgId nsid (st.messageIdCounter + q.1 + 1) })

/-- The successful branch of `forkSession`. -/
def forkCommit (st : Store) (fromSessionId : String) (src : StoredSession)
    (atMessageId : Option String) (fi : Nat) : Store :=
  let nsid := freshForkId st
  let srcRefs := src.messageRefs.take fi
  let newCells := forkPrefixCells st nsid srcRefs
  let stalloc := allocCells { st with freshCounter := st.freshCounter + 1 } newCells
  let st2 := { stalloc.1 with messageIdCounter := st.messageIdCounter + newCells.length }
  let histList :=
    match src.historyRef with
    | some hr => (st.msgArrays hr).take fi
    | none => []
  let fpMsgId := forkFpMsgId st srcRefs atMessageId
  let fp : ForkPoint :=
    { messageId := fpMsgId
      originalSessionId := fromSessionId
      forkedSessionIds := [nsid] }
  forkCommitFinish st2 fromSessionId nsid fpMsgId src.systemPrompt
    src.forkPoints stalloc.2 newCells histList fp

/-- `SessionStore.forkSession`. -/
def forkSession (st : Store) (fromSessionId : String) (atMessageId : Option String) :
    Store × RRes String :=
  match st.sessions fromSessionId with
  | none => (st, RRes.failure ("Session " ++ fromSessionId ++ " not found"))
  | some src =>
    match forkIndexOf st src atMessageId with
    | none =>
      (st, RRes.failure ("Message " ++ (atMessageId.getD "") ++ " not found"))
    | some fi =>
      (forkCommit st fromSessionId src atMessageId fi,
        RRes.success (freshForkId st))

/-- The parts of `ConversationHistory` the claims inspect. -/
structure ConversationHistory where
  messages : List MessageCell
  forkPoints : List ForkPoint
deriving DecidableEq

/-- `SessionStore.getConversationHistory` (messages and fork points;
the lineage and context parts are not needed by any claim). -/
def getConversationHistory (st : Store) (sessionId : String) :
    RRes ConversationHistory :=
  match st.sessions sessionId with
  | none => RRes.failure ("Session " ++ sessionId ++ " not found")
  | some s =>
    RRes.success
      { messages := s.messageRefs.map st.msgCells, forkPoints := s.forkPoints }

/-- `SessionStore.cacheResponse` (`new Date()` as the `now` argument). -/
def cacheResponse (st : Store) (sessionId prompt response messageId : String)
    (ttl : Int) (now : Int) : Store × RRes Unit :=
  let cached : CachedResponse :=
    { prompt := prompt, response := response, messageId := messageId,
      timestamp := now, ttl := ttl }
  let cache2 := st.responseCache sessionId ++ [cached]
  ({ st with responseCache := updStr st.responseCache sessionId cache2 },
    RRes.success ())

/-- `SessionStore.getCachedResponse` (`Date.now()` as the `now`
argument): first unexpired entry with the exact prompt, else `null`;
always a success result. -/
def getCachedResponse (st : Store) (sessionId prompt : String) (now : Int) :
    RRes (Option CachedResponse) :=
  RRes.success ((st.responseCache sessionId).find?
    (fun c => c.prompt == prompt && decide (now - c.timestamp < c.ttl)))

/-- Fresh checkpoint names (clock/random in the source, modelled by the
counter). -/
def freshCheckpointId (st : Store) : String :=
  "checkpoint-" ++ toString (st.freshCounter + 1)

/-- `SessionStore.createCheckpoint`: shallow-copied snapshot, stored in
the global and per-session checkpoint maps. -/
def createCheckpoint (st : Store) (sessionId : String) (nm : Option String) :
    Store × RRes String :=
  match st.sessions sessionId with
  | none => (st, RRes.failure ("Session " ++ sessionId ++ " not found"))
  | some session =>
    let cid := freshCheckpointId st
    let snap : SessionSnapshot :=
      { snapId := cid, name := nm, sessionId := sessionId,
        systemPrompt := session.systemPrompt,
        historyRef := session.historyRef,
        messageRefs := session.messageRefs }
    let sess2 := { session with checkpointIds := session.checkpointIds ++ [cid] }
    let st1 := { st with
        freshCounter := st.freshCounter + 1
        checkpoints := updStr st.checkpoints cid (some snap)
        sessions := updStr st.sessions sessionId (some sess2) }
    (st1, RRes.success cid)

/-- `SessionStore.restoreCheckpoint`: a pure lookup. -/
def restoreCheckpoint (st : Store) (checkpointId : String) : RRes SessionSnapshot :=
  match st.checkpoints checkpointId with
  | none => RRes.failure ("Checkpoint " ++ checkpointId ++ " not found")
  | some snap => RRes.success snap

/-- The contents of a snapshot's `context.history` array, read through
its (possibly shared) reference. -/
def snapshotContextHistory (st : Store) (cid : String) : Option (List Message) :=
  (st.checkpoints cid).bind (fun sn => sn.historyRef.map st.msgArrays)

/-- The `childMessageIds` array of the record cell at `r`, read through
the cell's array reference. -/
def cellChildIds (st : Store) (r : Nat) : List String :=
  st.idArrays ((st.msgCells r).childIdsRef)

/-! ### Frame and characterization lemmas for the store operations -/

lemma updateSessionWith_msgCells (st : Store) (sid : String)
    (f : StoredSession → StoredSession) :
    (updateSessionWith st sid f).msgCells = st.msgCells := by
  unfold updateSessionWith
  split <;> rfl

lemma updateSessionWith_checkpoints (st : Store) (sid : String)
    (f : StoredSession → StoredSession) :
    (updateSessionWith st sid f).checkpoints = st.checkpoints := by
  unfold updateSessionWith
  split <;> rfl

lemma updateSessionWith_sessions_self (st : Store) (sid : String)
    (f : StoredSession → StoredSession) (ssn : StoredSession)
    (h : st.sessions sid = some ssn) :
    (updateSessionWith st sid f).sessions sid = some (f ssn) := by
  unfold updateSessionWith
  rw [h]
  simp [updStr]

lemma updateSessionWith_sessions_ne (st : Store) (sid q : String)
    (f : StoredSession → StoredSession) (h : q ≠ sid) :
    (updateSessionWith st sid f).sessions q = st.sessions q := by
  unfold updateSessionWith
  cases hs : st.sessions sid with
  | none => rfl
  | some ssn => simp [updStr, h]

lemma markForkPoint_checkpoints (st : Store) (x : String) :
    (markForkPoint st x).checkpoints = st.checkpoints := by
  unfold markForkPoint
  split
  · rfl
  · split <;> rfl

lemma markForkPoint_nextRef (st : Store) (x : String) :
    (markForkPoint st x).nextRef = st.nextRef := by
  unfold markForkPoint
  split
  · rfl
  · split <;> rfl

lemma markForkPoint_cell_fields (st : Store) (x : String) (r : Nat) :
    ((markForkPoint st x).msgCells r).role = (st.msgCells r).role ∧
      ((markForkPoint st x).msgCells r).content = (st.msgCells r).content ∧
      ((markForkPoint st x).msgCells r).id = (st.msgCells r).id ∧
      ((markForkPoint st x).msgCells r).sessionId = (st.msgCells r).sessionId ∧
      ((markForkPoint st x).msgCells r).childIdsRef = (st.msgCells r).childIdsRef := by
  unfold markForkPoint
  split
  · exact ⟨rfl, rfl, rfl, rfl, rfl⟩
  · split
    · rename_i r2 hr2
      simp only [updFun]
      by_cases hr : r = r2
      · subst hr
        simp
      · rw [if_neg hr]
        exact ⟨rfl, rfl, rfl, rfl, rfl⟩
    · exact ⟨rfl, rfl, rfl, rfl, rfl⟩

lemma updStr_ne {α : Type} (f : String → α) (k : String) (v : α) (q : String)
    (h : q ≠ k) : updStr f k v q = f q := by
  simp [updStr, h]

lemma updStr_self {α : Type} (f : String → α) (k : String) (v : α) :
    updStr f k v k = v := by
  simp [updStr]

lemma saveSession_some_msgCells (st : Store) (sid : String) (pid : Option String)
    (q : Option String × Option Nat) :
    ((saveSession st sid pid (some q)).1).msgCells = st.msgCells := by
  simp only [saveSession]
  split <;> first | rfl | (split <;> rfl)

lemma saveSession_some_checkpoints (st : Store) (sid : String) (pid : Option String)
    (q : Option String × Option Nat) :
    ((saveSession st sid pid (some q)).1).checkpoints = st.checkpoints := by
  simp only [saveSession]
  split <;> first | rfl | (split <;> rfl)

/-- The session record written by `saveSession` for its own id. -/
def newSession (sid2 : String) (pid : Option String) (sys : Option String)
    (hr : Option Nat) : StoredSession :=
  { sid := sid2
    parentId := pid
    childIds := []
    systemPrompt := sys
    historyRef := hr
    messageRefs := []
    forkPoints := []
    checkpointIds := [] }

lemma saveSession_some_sessions_self (st : Store) (sid p : String)
    (q : Option String × Option Nat) (h : p ≠ sid) :
    ((saveSession st sid (some p) (some q)).1).sessions sid =
      some (newSession sid (some p) q.1 q.2) := by
  simp only [saveSession, newSession]
  rw [updStr_ne _ _ _ _ h]
  have h2 : sid ≠ p := fun hc => h hc.symm
  cases hp : st.sessions p with
  | none => simp [updStr]
  | some ps => simp [updStr, h2]

lemma allocCells_refs (st : Store) (cells : List MessageCell) :
    (allocCells st cells).2 =
      (List.range cells.length).map (fun i => st.nextRef + i) := by
  induction cells generalizing st with
  | nil => rfl
  | cons c rest ih =>
    simp only [allocCells]
    rw [ih]
    simp only [List.length_cons, List.range_succ_eq_map, List.map_cons,
      List.map_map, Nat.add_zero]
    congr 1
    apply List.map_congr_left
    intro i _
    simp only [Function.comp_apply]
    omega

lemma allocCells_nextRef (st : Store) (cells : List MessageCell) :
    (allocCells st cells).1.nextRef = st.nextRef + cells.length := by
  induction cells generalizing st with
  | nil => simp [allocCells]
  | cons c rest ih =>
    simp only [allocCells]
    rw [ih]
    simp only [List.length_cons]
    omega

lemma allocCells_msgCells_lt (st : Store) (cells : List MessageCell) (n : Nat)
    (h : n < st.nextRef) :
    (allocCells st cells).1.msgCells n = st.msgCells n := by
  induction cells generalizing st with
  | nil => rfl
  | cons c rest ih =>
    simp only [allocCells]
    rw [ih _ (Nat.lt_succ_of_lt h)]
    simp only [updFun]
    rw [if_neg (by omega)]

lemma allocCells_get (st : Store) (cells : List MessageCell) (i : Nat)
    (hi : i < cells.length) :
    (allocCells st cells).1.msgCells (st.nextRef + i) = cells.get ⟨i, hi⟩ := by
  induction cells generalizing st i with
  | nil => simp at hi
  | cons c rest ih =>
    simp only [allocCells]
    cases i with
    | zero =>
      rw [allocCells_msgCells_lt _ _ _ (Nat.lt_succ_self _)]
      simp [updFun]
    | succ j =>
      have hj : j < rest.length := by simpa using hi
      have hrec := ih
        { st with msgCells := updFun st.msgCells st.nextRef c, nextRef := st.nextRef + 1 }
        j hj
      dsimp only at hrec
      rw [show st.nextRef + (j + 1) = st.nextRef + 1 + j by omega]
      rw [hrec]
      rfl

lemma allocCells_checkpoints (st : Store) (cells : List MessageCell) :
    (allocCells st cells).1.checkpoints = st.checkpoints := by
  induction cells generalizing st with
  | nil => rfl
  | cons c rest ih =>
    simp only [allocCells]
    rw [ih]

lemma forkCommitFinish_checkpoints (st2 : Store) (fromId nsid fpMsgId : String)
    (srcSys : Option String) (srcForkPoints : List ForkPoint)
    (newRefs : List Nat) (newCells : List MessageCell)
    (histList : List Message) (fp : ForkPoint) :
    (forkCommitFinish st2 fromId nsid fpMsgId srcSys srcForkPoints newRefs
        newCells histList fp).checkpoints = st2.checkpoints := by
  simp only [forkCommitFinish, updateSessionWith_checkpoints,
    saveSession_some_checkpoints, markForkPoint_checkpoints]

lemma forkCommitFinish_sessions_new (st2 : Store) (fromId nsid fpMsgId : String)
    (srcSys : Option String) (srcForkPoints : List ForkPoint)
    (newRefs : List Nat) (newCells : List MessageCell)
    (histList : List Message) (fp : ForkPoint) (hneq : fromId ≠ nsid) :
    (forkCommitFinish st2 fromId nsid fpMsgId srcSys srcForkPoints newRefs
        newCells histList fp).sessions nsid =
      some { newSession nsid (some fromId) srcSys
          (some (markForkPoint st2 fpMsgId).nextRef) with
        messageRefs := newRefs, forkPoints := srcForkPoints ++ [fp] } := by
  have hneq2 : nsid ≠ fromId := fun hc => hneq hc.symm
  simp only [forkCommitFinish]
  rw [updateSessionWith_sessions_ne _ _ _ _ hneq2]
  rw [updateSessionWith_sessions_self _ _ _ _
    (saveSession_some_sessions_self _ _ _ _ hneq)]

lemma forkCommitFinish_cell_fields (st2 : Store) (fromId nsid fpMsgId : String)
    (srcSys : Option String) (srcForkPoints : List ForkPoint)
    (newRefs : List Nat) (newCells : List MessageCell)
    (histList : List Message) (fp : ForkPoint) (r : Nat) :
    (((forkCommitFinish st2 fromId nsid fpMsgId srcSys srcForkPoints newRefs
        newCells histList fp).msgCells r).role = ((st2.msgCells r)).role ∧
      ((forkCommitFinish st2 fromId nsid fpMsgId srcSys srcForkPoints newRefs
        newCells histList fp).msgCells r).content = (st2.msgCells r).content ∧
      ((forkCommitFinish st2 fromId nsid fpMsgId srcSys srcForkPoints newRefs
        newCells histList fp).msgCells r).id = (st2.msgCells r).id ∧
      ((forkCommitFinish st2 fromId nsid fpMsgId srcSys srcForkPoints newRefs
        newCells histList fp).msgCells r).sessionId = (st2.msgCells r).sessionId ∧
      ((forkCommitFinish st2 fromId nsid fpMsgId srcSys srcForkPoints newRefs
        newCells histList fp).msgCells r).childIdsRef
        = (st2.msgCells r).childIdsRef) := by
  simp only [forkCommitFinish, updateSessionWith_msgCells,
    saveSession_some_msgCells]
  exact markForkPoint_cell_fields st2 fpMsgId r

lemma forkCommit_checkpoints (st : Store) (fromId : String) (src : StoredSession)
    (atId : Option String) (fi : Nat) :
    (forkCommit st fromId src atId fi).checkpoints = st.checkpoints := by
  simp only [forkCommit, forkCommitFinish_checkpoints, allocCells_checkpoints]

lemma forkCommit_sessions_new (st : Store) (fromId : String) (src : StoredSession)
    (atId : Option String) (fi : Nat) (hneq : fromId ≠ freshForkId st) :
    ∃ ns : StoredSession,
      (forkCommit st fromId src atId fi).sessions (freshForkId st) = some ns ∧
        ns.parentId = some fromId ∧
        ns.messageRefs = (List.range (src.messageRefs.take fi).length).map
          (fun i => st.nextRef + i) := by
  simp only [forkCommit]
  rw [forkCommitFinish_sessions_new _ _ _ _ _ _ _ _ _ _ hneq]
  refine ⟨_, rfl, ?_, ?_⟩
  · simp [newSession]
  · simp only [newSession]
    rw [allocCells_refs]
    simp [forkPrefixCells, List.length_map, List.enum_length]

lemma forkCommit_cell_fields (st : Store) (fromId : String) (src : StoredSession)
    (atId : Option String) (fi : Nat) (i : Nat)
    (hi : i < (src.messageRefs.take fi).length) :
    ((forkCommit st fromId src atId fi).msgCells (st.nextRef + i)).role
        = (st.msgCells ((src.messageRefs.take fi).get ⟨i, hi⟩)).role ∧
      ((forkCommit st fromId src atId fi).msgCells (st.nextRef + i)).content
        = (st.msgCells ((src.messageRefs.take fi).get ⟨i, hi⟩)).content ∧
      ((forkCommit st fromId src atId fi).msgCells (st.nextRef + i)).sessionId
        = freshForkId st ∧
      ((forkCommit st fromId src atId fi).msgCells (st.nextRef + i)).id
        = mkMsgId (freshForkId st) (st.messageIdCounter + i + 1) ∧
      ((forkCommit st fromId src atId fi).msgCells (st.nextRef + i)).childIdsRef
        = (st.msgCells ((src.messageRefs.take fi).get ⟨i, hi⟩)).childIdsRef := by
  have hi2 : i < (forkPrefixCells st (freshForkId st) (src.messageRefs.take fi)).length := by
    simpa [forkPrefixCells, List.length_map, List.enum_length] using hi
  have hget := allocCells_get { st with freshCounter := st.freshCounter + 1 }
    (forkPrefixCells st (freshForkId st) (src.messageRefs.take fi)) i hi2
  dsimp only at hget
  have hcell : (forkPrefixCells st (freshForkId st) (src.messageRefs.take fi)).get
      ⟨i, hi2⟩ =
      { st.msgCells ((src.messageRefs.take fi).get ⟨i, hi⟩) with
        sessionId := freshForkId st
        id := mkMsgId (freshForkId st) (st.messageIdCounter + i + 1) } := by
    simp only [forkPrefixCells]
    rw [List.get_map, List.get_enum]
    simp
  simp only [forkCommit]
  have hf := forkCommitFinish_cell_fields
    { (allocCells { st with freshCounter := st.freshCounter + 1 }
        (forkPrefixCells st (freshForkId st) (src.messageRefs.take fi))).1 with
      messageIdCounter := st.messageIdCounter +
        (forkPrefixCells st (freshForkId st) (src.messageRefs.take fi)).length }
    fromId (freshForkId st)
    (forkFpMsgId st (src.messageRefs.take fi) atId)
    src.systemPrompt src.forkPoints
    (allocCells { st with freshCounter := st.freshCounter + 1 }
      (forkPrefixCells st (freshForkId st) (src.messageRefs.take fi))).2
    (forkPrefixCells st (freshForkId st) (src.messageRefs.take fi))
    (match src.historyRef with
      | some hr => (st.msgArrays hr).take fi
      | none => [])
    { messageId := forkFpMsgId st (src.messageRefs.take fi) atId
      originalSessionId := fromId
      forkedSessionIds := [freshForkId st] }
    (st.nextRef + i)
  dsimp only at hf
  rw [hf.1, hf.2.1, hf.2.2.1, hf.2.2.2.1, hf.2.2.2.2]
  rw [hget, hcell]
  exact ⟨rfl, rfl, rfl, rfl, rfl⟩

lemma findIdx?_key_aux {α : Type} (f : α → String) (l : List α) (k j : Nat)
    (hk : k < l.length) (hnd : (l.map f).Nodup) :
    List.findIdx? (fun a => f a == f (l.get ⟨k, hk⟩)) l j = some (j + k) := by
  induction l generalizing k j with
  | nil => exact absurd hk (by simp)
  | cons a l ih =>
    cases k with
    | zero =>
      rw [List.findIdx?_cons, if_pos (by simp)]
      simp
    | succ k2 =>
      have hk2 : k2 < l.length := by simpa using hk
      have hna : f a ∉ l.map f := by
        rw [List.map_cons, List.nodup_cons] at hnd
        exact hnd.1
      have hpa : (f a == f ((a :: l).get ⟨k2 + 1, hk⟩)) = false := by
        rw [beq_eq_false_iff_ne]
        show f a ≠ f (l.get ⟨k2, hk2⟩)
        intro hc
        rw [hc] at hna
        exact hna (List.mem_map_of_mem f (List.get_mem l k2 hk2))
      rw [List.findIdx?_cons]
      simp only [hpa, Bool.false_eq_true, if_false]
      have hnd2 : (l.map f).Nodup := by
        rw [List.map_cons, List.nodup_cons] at hnd
        exact hnd.2
      have := ih k2 (j + 1) hk2 hnd2
      rw [show (fun a2 => f a2 == f ((a :: l).get ⟨k2 + 1, hk⟩))
          = (fun a2 => f a2 == f (l.get ⟨k2, hk2⟩)) from rfl]
      rw [this]
      congr 1
      omega

lemma forkIndexOf_at (st : Store) (src : StoredSession) (k : Nat)
    (hk : k < src.messageRefs.length)
    (hnd : (src.messageRefs.map (fun r => (st.msgCells r).id)).Nodup) :
    forkIndexOf st src (some ((st.msgCells (src.messageRefs.get ⟨k, hk⟩)).id))
      = some (k + 1) := by
  unfold forkIndexOf
  show (match List.findIdx? (fun r => (st.msgCells r).id
      == (st.msgCells (src.messageRefs.get ⟨k, hk⟩)).id) src.messageRefs with
    | none => none
    | some i => some (i + 1)) = some (k + 1)
  have hfind := findIdx?_key_aux (fun r2 => (st.msgCells r2).id)
    src.messageRefs k 0 hk hnd
  simp only [] at hfind
  rw [hfind]
  simp

lemma forkSession_run (st : Store) (fromId : String) (src : StoredSession)
    (atId : Option String) (fi : Nat) (hs : st.sessions fromId = some src)
    (hfi : forkIndexOf st src atId = some fi) :
    forkSession st fromId atId =
      (forkCommit st fromId src atId fi, RRes.success (freshForkId st)) := by
  simp only [forkSession, hs, hfi]

lemma forkSession_history (st : Store) (fromId : String) (src : StoredSession)
    (atId : Option String) (fi : Nat) (hs : st.sessions fromId = some src)
    (hfi : forkIndexOf st src atId = some fi)
    (hfl : fi ≤ src.messageRefs.length) (hneq : fromId ≠ freshForkId st) :
    ∃ ch : ConversationHistory,
      (forkSession st fromId atId).2 = RRes.success (freshForkId st) ∧
        getConversationHistory (forkSession st fromId atId).1 (freshForkId st)
          = RRes.success ch ∧
        ch.messages.length = fi ∧
        ∀ i, i < fi →
          (ch.messages.get? i).map (fun c => (c.role, c.content))
            = (src.messageRefs.get? i).map
                (fun r => ((st.msgCells r).role, (st.msgCells r).content)) := by
  rw [forkSession_run st fromId src atId fi hs hfi]
  obtain ⟨ns, hns, hpar, hrefs⟩ := forkCommit_sessions_new st fromId src atId fi hneq
  have hlen : (src.messageRefs.take fi).length = fi := by
    rw [List.length_take]
    omega
  refine ⟨⟨ns.messageRefs.map (forkCommit st fromId src atId fi).msgCells,
    ns.forkPoints⟩, rfl, ?_, ?_, ?_⟩
  · simp only [getConversationHistory, hns]
  · rw [List.length_map, hrefs, List.length_map, List.length_range, hlen]
  · intro i hi
    have hi2 : i < (src.messageRefs.take fi).length := by omega
    have hi3 : i < src.messageRefs.length := by omega
    rw [List.get?_map, hrefs, List.get?_map, List.get?_range (by omega),
      List.get?_eq_get hi3]
    obtain ⟨h1, h2, _, _, _⟩ := forkCommit_cell_fields st fromId src atId fi i hi2
    simp only [Option.map_some']
    rw [h1, h2]
    simp only [List.get_eq_getElem, List.getElem_take]

/-- Claim C1: forking a session at the id of its k-th message succeeds
and the forked session's conversation history holds exactly k+1
messages whose roles and contents equal those of the source's first k+1
messages in order; forking with the message id omitted copies the full
message list.  (Hypotheses: the session exists, its records carry
pairwise distinct ids, and the generated fork name differs from the
source id.) -/
theorem forkSession_prefix_copy (st : Store) (fromId : String)
    (src : StoredSession) (k : Nat) (hs : st.sessions fromId = some src)
    (hk : k < src.messageRefs.length)
    (hnd : (src.messageRefs.map (fun r => (st.msgCells r).id)).Nodup)
    (hneq : fromId ≠ freshForkId st) :
    (∃ ch : ConversationHistory,
      (forkSession st fromId
          (some ((st.msgCells (src.messageRefs.get ⟨k, hk⟩)).id))).2
        = RRes.success (freshForkId st) ∧
      getConversationHistory
          (forkSession st fromId
            (some ((st.msgCells (src.messageRefs.get ⟨k, hk⟩)).id))).1
          (freshForkId st) = RRes.success ch ∧
      ch.messages.length = k + 1 ∧
      ∀ i, i < k + 1 →
        (ch.messages.get? i).map (fun c => (c.role, c.content))
          = (src.messageRefs.get? i).map
              (fun r => ((st.msgCells r).role, (st.msgCells r).content))) ∧
    (∃ ch : ConversationHistory,
      (forkSession st fromId none).2 = RRes.success (freshForkId st) ∧
      getConversationHistory (forkSession st fromId none).1 (freshForkId st)
        = RRes.success ch ∧
      ch.messages.length = src.messageRefs.length ∧
      ∀ i, i < src.messageRefs.length →
        (ch.messages.get? i).map (fun c => (c.role, c.content))
          = (src.messageRefs.get? i).map
              (fun r => ((st.msgCells r).role, (st.msgCells r).content))) := by
  constructor
  · exact forkSession_history st fromId src _ (k + 1) hs
      (forkIndexOf_at st src k hk hnd) (by omega) hneq
  · exact forkSession_history st fromId src none src.messageRefs.length hs
      (by simp [forkIndexOf]) (le_refl _) hneq

/-- A concrete store: one session `"s"` with a user and an assistant
message (`saveSession` then two `addMessage` calls). -/
def wStore0 : Store := (saveSession emptyStore "s" none none).1

def wStore1 : Store :=
  (addMessage wStore0 "s" { role := Role.user, content := "m1", timestamp := 0 }).1

def wStore2 : Store :=
  (addMessage wStore1 "s" { role := Role.assistant, content := "m2", timestamp := 1 }).1

/-- The stored-session record `wStore2` holds under `"s"`. -/
def wSrc : StoredSession :=
  { sid := "s", parentId := none, childIds := [], systemPrompt := none,
    historyRef := some 0, messageRefs := [2, 4], forkPoints := [],
    checkpointIds := [] }

theorem forkSession_prefix_copy_witness :
    wStore2.sessions "s" = some wSrc ∧
    0 < wSrc.messageRefs.length ∧
    (wSrc.messageRefs.map (fun r => (wStore2.msgCells r).id)).Nodup ∧
    "s" ≠ freshForkId wStore2 ∧
    ((∃ ch : ConversationHistory,
      (forkSession wStore2 "s"
          (some ((wStore2.msgCells (wSrc.messageRefs.get ⟨0, by decide⟩)).id))).2
        = RRes.success (freshForkId wStore2) ∧
      getConversationHistory
          (forkSession wStore2 "s"
            (some ((wStore2.msgCells (wSrc.messageRefs.get ⟨0, by decide⟩)).id))).1
          (freshForkId wStore2) = RRes.success ch ∧
      ch.messages.length = 0 + 1 ∧
      ∀ i, i < 0 + 1 →
        (ch.messages.get? i).map (fun c => (c.role, c.content))
          = (wSrc.messageRefs.get? i).map
              (fun r => ((wStore2.msgCells r).role, (wStore2.msgCells r).content))) ∧
    (∃ ch : ConversationHistory,
      (forkSession wStore2 "s" none).2 = RRes.success (freshForkId wStore2) ∧
      getConversationHistory (forkSession wStore2 "s" none).1 (freshForkId wStore2)
        = RRes.success ch ∧
      ch.messages.length = wSrc.messageRefs.length ∧
      ∀ i, i < wSrc.messageRefs.length →
        (ch.messages.get? i).map (fun c => (c.role, c.content))
          = (wSrc.messageRefs.get? i).map
              (fun r => ((wStore2.msgCells r).role, (wStore2.msgCells r).content)))) :=
  ⟨by decide, by decide, by decide, by decide,
    forkSession_prefix_copy wStore2 "s" wSrc 0 (by decide) (by decide) (by decide)
      (by decide)⟩

/-- Fork the one-message store, then append to the source session. -/
def c2Store0 : Store := (forkSession wStore1 "s" none).1

def c2Store1 : Store :=
  (addMessage c2Store0 "s"
    { role := Role.assistant, content := "m2", timestamp := 1 }).1

/-- Claim C2 counterexample: fork the one-message session `"s"`; the
forked record (cell 3) starts with an empty `childMessageIds` array,
but a later `addMessage` on the *source* session pushes the new id onto
the very array the forked record holds, so the mutation is observable
through the forked session's record — the `childMessageIds` arrays are
shared by reference, refuting "no mutable record state ... is shared
between the source session and the forked session". -/
theorem forkRecords_claim_counterexample :
    (forkSession wStore1 "s" none).2 = RRes.success "session-fork-1" ∧
    (∃ ns, c2Store0.sessions "session-fork-1" = some ns ∧ ns.messageRefs = [3]) ∧
    cellChildIds c2Store0 3 = [] ∧
    cellChildIds c2Store1 3 = ["msg-s-3"] := by
  refine ⟨by decide, ⟨⟨"session-fork-1", some "s", [], none, some 4, [3],
    [⟨"msg-s-1", "s", ["session-fork-1"]⟩], []⟩, by decide, by decide⟩, by decide, by decide⟩

/-- Claim C2 (amended): the fork allocates brand-new record cells at
fresh references with fresh ids scoped to the new session — so the
records themselves are not shared — but each copied record keeps the
*same* `childMessageIds` array reference as the source record it was
spread from (a shallow `{...msg}` copy), so that array's state remains
shared across the two sessions. -/
theorem forkRecords_resolution (st : Store) (fromId : String)
    (src : StoredSession) (atId : Option String) (fi : Nat)
    (hs : st.sessions fromId = some src)
    (hfi : forkIndexOf st src atId = some fi)
    (hfl : fi ≤ src.messageRefs.length) (hneq : fromId ≠ freshForkId st)
    (hwf : ∀ r ∈ src.messageRefs, r < st.nextRef) :
    ∃ ns, (forkSession st fromId atId).1.sessions (freshForkId st) = some ns ∧
      ns.messageRefs = (List.range fi).map (fun i => st.nextRef + i) ∧
      ∀ i, i < fi →
        (st.nextRef + i) ∉ src.messageRefs ∧
        ∃ r, src.messageRefs.get? i = some r ∧
          ((forkSession st fromId atId).1.msgCells (st.nextRef + i)).id
            = mkMsgId (freshForkId st) (st.messageIdCounter + i + 1) ∧
          ((forkSession st fromId atId).1.msgCells (st.nextRef + i)).sessionId
            = freshForkId st ∧
          ((forkSession st fromId atId).1.msgCells (st.nextRef + i)).childIdsRef
            = (st.msgCells r).childIdsRef := by
  rw [forkSession_run st fromId src atId fi hs hfi]
  obtain ⟨ns, hns, hpar, hrefs⟩ := forkCommit_sessions_new st fromId src atId fi hneq
  have hlen : (src.messageRefs.take fi).length = fi := by
    rw [List.length_take]
    omega
  refine ⟨ns, hns, by rw [hrefs, hlen], ?_⟩
  intro i hi
  have hi2 : i < (src.messageRefs.take fi).length := by omega
  have hi3 : i < src.messageRefs.length := by omega
  constructor
  · intro hmem
    exact absurd (hwf _ hmem) (by omega)
  · obtain ⟨_, _, hsid, hid, hch⟩ := forkCommit_cell_fields st fromId src atId fi i hi2
    refine ⟨src.messageRefs.get ⟨i, hi3⟩, List.get?_eq_get hi3, hid, hsid, ?_⟩
    rw [hch]
    simp only [List.get_eq_getElem, List.getElem_take]

/-- The stored-session record `wStore1` holds under `"s"`. -/
def wSrc1 : StoredSession :=
  { sid := "s", parentId := none, childIds := [], systemPrompt := none,
    historyRef := some 0, messageRefs := [2], forkPoints := [],
    checkpointIds := [] }

theorem forkRecords_resolution_witness :
    wStore1.sessions "s" = some wSrc1 ∧
    forkIndexOf wStore1 wSrc1 none = some 1 ∧
    1 ≤ wSrc1.messageRefs.length ∧
    "s" ≠ freshForkId wStore1 ∧
    (∀ r ∈ wSrc1.messageRefs, r < wStore1.nextRef) ∧
    (∃ ns, (forkSession wStore1 "s" none).1.sessions (freshForkId wStore1) = some ns ∧
      ns.messageRefs = (List.range 1).map (fun i => wStore1.nextRef + i) ∧
      ∀ i, i < 1 →
        (wStore1.nextRef + i) ∉ wSrc1.messageRefs ∧
        ∃ r, wSrc1.messageRefs.get? i = some r ∧
          ((forkSession wStore1 "s" none).1.msgCells (wStore1.nextRef + i)).id
            = mkMsgId (freshForkId wStore1) (wStore1.messageIdCounter + i + 1) ∧
          ((forkSession wStore1 "s" none).1.msgCells (wStore1.nextRef + i)).sessionId
            = freshForkId wStore1 ∧
          ((forkSession wStore1 "s" none).1.msgCells (wStore1.nextRef + i)).childIdsRef
            = (wStore1.msgCells r).childIdsRef) :=
  ⟨by decide, by decide, by decide, by decide, by decide,
    forkRecords_resolution wStore1 "s" wSrc1 none 1 (by decide) (by decide)
      (by decide) (by decide) (by decide)⟩

lemma addMessage_checkpoints (st : Store) (sid : String) (m : Message) :
    (addMessage st sid m).1.checkpoints = st.checkpoints := by
  cases hx : st.sessions sid with
  | none => simp only [addMessage, hx]
  | some session =>
    cases hl : session.messageRefs.getLast? <;>
      cases hh : session.historyRef <;>
        simp only [addMessage, hx, hl, hh]

lemma forkSession_checkpoints (st : Store) (fromId : String) (atId : Option String) :
    (forkSession st fromId atId).1.checkpoints = st.checkpoints := by
  cases hx : st.sessions fromId with
  | none => simp only [forkSession, hx]
  | some src =>
    cases hfi : forkIndexOf st src atId with
    | none => simp only [forkSession, hx, hfi]
    | some fi =>
      rw [forkSession_run st fromId src atId fi hx hfi]
      exact forkCommit_checkpoints st fromId src atId fi

/-- Checkpoint the one-message store, then append to the live session. -/
def c6Store0 : Store := (createCheckpoint wStore1 "s" none).1

def c6Store1 : Store :=
  (addMessage c6Store0 "s"
    { role := Role.assistant, content := "m2", timestamp := 1 }).1

/-- Claim C6 counterexample: checkpoint the session holding only `m1`;
the snapshot's `context.history`, read through its array reference,
initially holds `[m1]`, but a later `addMessage` on the live session
appends to the very array the snapshot references, so the snapshot's
history silently grows to `[m1, m2]` — the copy is shallow
(`{...session.context}` copies the array reference), refuting "deep
copy ... read-only thereafter: every later mutation of the live session
... leaves the stored snapshot's contents unchanged". -/
theorem checkpoint_claim_counterexample :
    (createCheckpoint wStore1 "s" none).2 = RRes.success "checkpoint-1" ∧
    snapshotContextHistory c6Store0 "checkpoint-1"
      = some [{ role := Role.user, content := "m1", timestamp := 0 }] ∧
    snapshotContextHistory c6Store1 "checkpoint-1"
      = some [{ role := Role.user, content := "m1", timestamp := 0 },
          { role := Role.assistant, content := "m2", timestamp := 1 }] := by
  refine ⟨by decide, by decide, by decide⟩

/-- Claim C6 (amended): `createCheckpoint` stores a *shallow* snapshot —
it captures the session's system prompt, its `context.history` array
reference, and a copy of the message-reference list at creation time.
The stored snapshot value itself is immutable: later `addMessage` and
`forkSession` operations leave every stored checkpoint entry unchanged,
and `restoreCheckpoint` is a pure lookup that mutates nothing and
returns the stored snapshot — but the history *contents* read through
the shared array reference can still change (see the counterexample). -/
theorem checkpoint_resolution (st : Store) (sid : String) (nm : Option String)
    (ssn : StoredSession) (hs : st.sessions sid = some ssn) :
    (∃ snap : SessionSnapshot,
      (createCheckpoint st sid nm).2 = RRes.success (freshCheckpointId st) ∧
      (createCheckpoint st sid nm).1.checkpoints (freshCheckpointId st) = some snap ∧
      snap.systemPrompt = ssn.systemPrompt ∧
      snap.historyRef = ssn.historyRef ∧
      snap.messageRefs = ssn.messageRefs) ∧
    (∀ cid snap, st.checkpoints cid = some snap →
      (∀ sid2 m, (addMessage st sid2 m).1.checkpoints cid = some snap) ∧
      (∀ fromId atId, (forkSession st fromId atId).1.checkpoints cid = some snap) ∧
      restoreCheckpoint st cid = RRes.success snap) := by
  constructor
  · refine ⟨⟨freshCheckpointId st, nm, sid, ssn.systemPrompt, ssn.historyRef,
      ssn.messageRefs⟩, ?_, ?_, rfl, rfl, rfl⟩
    · simp only [createCheckpoint, hs]
    · simp only [createCheckpoint, hs, updStr_self]
  · intro cid snap hcp
    refine ⟨?_, ?_, ?_⟩
    · intro sid2 m
      rw [addMessage_checkpoints]
      exact hcp
    · intro fromId atId
      rw [forkSession_checkpoints]
      exact hcp
    · simp only [restoreCheckpoint, hcp]

theorem checkpoint_resolution_witness :
    wStore1.sessions "s" = some wSrc1 ∧
    ((∃ snap : SessionSnapshot,
      (createCheckpoint wStore1 "s" none).2 = RRes.success (freshCheckpointId wStore1) ∧
      (createCheckpoint wStore1 "s" none).1.checkpoints (freshCheckpointId wStore1)
        = some snap ∧
      snap.systemPrompt = wSrc1.systemPrompt ∧
      snap.historyRef = wSrc1.historyRef ∧
      snap.messageRefs = wSrc1.messageRefs) ∧
    (∀ cid snap, wStore1.checkpoints cid = some snap →
      (∀ sid2 m, (addMessage wStore1 sid2 m).1.checkpoints cid = some snap) ∧
      (∀ fromId atId, (forkSession wStore1 fromId atId).1.checkpoints cid = some snap) ∧
      restoreCheckpoint wStore1 cid = RRes.success snap)) :=
  ⟨by decide, checkpoint_resolution wStore1 "s" none wSrc1 (by decide)⟩

/-- Claim C8: `getCachedResponse` always returns a success result;
validity is the lazy read-time check `now - timestamp < ttl` on entries
whose stored prompt is exactly the requested prompt: when no entry
matches or every matching entry has expired the carried value is `null`
(`none`), and any carried entry is a stored entry with the exact prompt
that is unexpired at read time; conversely, when some stored entry with
the exact prompt is unexpired the carried value is such an entry. -/
theorem getCachedResponse_spec (st : Store) (sid p : String) (now : Int) :
    (∃ o, getCachedResponse st sid p now = RRes.success o) ∧
    ((∀ c ∈ st.responseCache sid, ¬(c.prompt = p ∧ now - c.timestamp < c.ttl)) →
      getCachedResponse st sid p now = RRes.success none) ∧
    (∀ c, getCachedResponse st sid p now = RRes.success (some c) →
      c ∈ st.responseCache sid ∧ c.prompt = p ∧ now - c.timestamp < c.ttl) ∧
    ((∃ c ∈ st.responseCache sid, c.prompt = p ∧ now - c.timestamp < c.ttl) →
      ∃ c, getCachedResponse st sid p now = RRes.success (some c)) := by
  refine ⟨⟨_, rfl⟩, ?_, ?_, ?_⟩
  · intro hall
    have hn : (st.responseCache sid).find?
        (fun c => c.prompt == p && decide (now - c.timestamp < c.ttl)) = none := by
      apply List.find?_eq_none.mpr
      intro c hc
      have h2 := hall c hc
      simp only [Bool.and_eq_true, beq_iff_eq, decide_eq_true_eq, not_and]
      intro h3 h4
      exact h2 ⟨h3, h4⟩
    simp only [getCachedResponse, hn]
  · intro c heq
    simp only [getCachedResponse, RRes.success.injEq] at heq
    have hmem := List.mem_of_find?_eq_some heq
    have hpred := List.find?_some heq
    simp only [Bool.and_eq_true, beq_iff_eq, decide_eq_true_eq] at hpred
    exact ⟨hmem, hpred.1, hpred.2⟩
  · intro hex
    obtain ⟨c, hc, hp2, ht⟩ := hex
    have hsome : ((st.responseCache sid).find?
        (fun c => c.prompt == p && decide (now - c.timestamp < c.ttl))).isSome := by
      apply List.find?_isSome.mpr
      exact ⟨c, hc, by simp [hp2, ht]⟩
    obtain ⟨c2, hc2⟩ := Option.isSome_iff_exists.mp hsome
    exact ⟨c2, by simp only [getCachedResponse, hc2]⟩

/-- Two cached responses at time 0: one with a 1ms ttl, one with a
10000ms ttl. -/
def c8Store : Store :=
  (cacheResponse (cacheResponse emptyStore "s" "q1" "r1" "m1" 1 0).1
    "s" "q2" "r2" "m2" 10000 0).1

theorem getCachedResponse_spec_witness :
    getCachedResponse c8Store "s" "q1" 5 = RRes.success none ∧
    (∃ c, getCachedResponse c8Store "s" "q2" 5 = RRes.success (some c)) :=
  ⟨(getCachedResponse_spec c8Store "s" "q1" 5).2.1 (by decide),
    (getCachedResponse_spec c8Store "s" "q2" 5).2.2.2
      ⟨{ prompt := "q2", response := "r2", messageId := "m2", timestamp := 0,
          ttl := 10000 }, by decide, by decide, by decide⟩⟩

/-- The observable outcome of the spawned process, as the promise
handlers see it: a spawn exception, an `error` event, an exit with the
timeout flag set, or a plain exit with a code and the collected stdout
text. -/
inductive ProcOutcome where
  | spawnErr (e : String)
  | procErr (e : String)
  | timedOut (signal : Option String)
  | exited (code : Int) (output : String)
deriving DecidableEq

/-- The `execute` caller's in-memory session state the claim inspects:
`this.messages`. -/
structure SessionObj where
  messages : List Message
deriving DecidableEq

/-- Whether the outcome takes one of `execute`'s failure paths. -/
def isFailureOutcome : ProcOutcome → Bool
  | ProcOutcome.exited code _ => code != 0
  | _ => true

/-- The tail of `execute`: how each promise-resolution path updates
`this.messages` and the store.  Spawn errors and `error` events resolve
a failure immediately; an exit with `isTimedOut` set resolves the
timeout failure; a non-zero exit code resolves a failure; a zero exit
sanitizes the output, appends the user and assistant messages to
`this.messages`, mirrors both into the store via `addMessage`, and
resolves success with the sanitized output. -/
def executeFinish (sess : SessionObj) (st : Store) (sid prompt : String)
    (timeout : Int) (errBuf : String) (nowU nowA : Int) (outcome : ProcOutcome) :
    SessionObj × Store × RRes String :=
  match outcome with
  | ProcOutcome.spawnErr e => (sess, st, RRes.failure e)
  | ProcOutcome.procErr e => (sess, st, RRes.failure e)
  | ProcOutcome.timedOut sig =>
    (sess, st, RRes.failure ("Claude request timed out after " ++ toString timeout
      ++ "ms. The operation was terminated with signal: " ++ sig.getD "SIGTERM"))
  | ProcOutcome.exited code output =>
    if code = 0 then
      let cleanOutput := sanitize output
      let userMessage : Message :=
        { role := Role.user, content := prompt, timestamp := nowU }
      let assistantMessage : Message :=
        { role := Role.assistant, content := cleanOutput, timestamp := nowA }
      let sess2 : SessionObj :=
        { messages := sess.messages ++ [userMessage, assistantMessage] }
      let st1 := (addMessage st sid userMessage).1
      let st2 := (addMessage st1 sid assistantMessage).1
      (sess2, st2, RRes.success cleanOutput)
    else
      (sess, st, RRes.failure ("Claude exited with code " ++ toString code ++ ": "
        ++ (if errBuf = "" then "No error output captured" else errBuf)))

lemma addMessage_refs_succ (st : Store) (sid : String) (m : Message)
    (ssn : StoredSession) (hs : st.sessions sid = some ssn) :
    ∃ ssn2, (addMessage st sid m).1.sessions sid = some ssn2 ∧
      ssn2.messageRefs.length = ssn.messageRefs.length + 1 := by
  simp only [addMessage, hs]
  cases hl : ssn.messageRefs.getLast? <;> cases hh : ssn.historyRef <;>
    simp only [hl, hh] <;>
    exact ⟨_, updStr_self _ _ _, by simp⟩

/-- Claim C10: the commit discipline of `execute` is atomic — every
failure path (spawn error, `error` event, timeout, non-zero exit)
leaves `this.messages` and the store untouched and resolves a failure,
while a zero exit resolves a success and appends exactly two messages,
the user message then the assistant message, to `this.messages`, and —
when the session exists in the store — grows its stored message list by
exactly two. -/
theorem execute_atomic_commit (sess : SessionObj) (st : Store) (sid prompt : String)
    (timeout : Int) (errBuf : String) (nowU nowA : Int) :
    (∀ outcome, isFailureOutcome outcome = true →
      (executeFinish sess st sid prompt timeout errBuf nowU nowA outcome).1 = sess ∧
      (executeFinish sess st sid prompt timeout errBuf nowU nowA outcome).2.1 = st ∧
      RRes.isSuccess
        (executeFinish sess st sid prompt timeout errBuf nowU nowA outcome).2.2
        = false) ∧
    (∀ output,
      (executeFinish sess st sid prompt timeout errBuf nowU nowA
          (ProcOutcome.exited 0 output)).1.messages
        = sess.messages ++
          [{ role := Role.user, content := prompt, timestamp := nowU },
            { role := Role.assistant, content := sanitize output, timestamp := nowA }] ∧
      RRes.isSuccess
        (executeFinish sess st sid prompt timeout errBuf nowU nowA
          (ProcOutcome.exited 0 output)).2.2 = true ∧
      ∀ ssn, st.sessions sid = some ssn →
        ∃ ssn2,
          (executeFinish sess st sid prompt timeout errBuf nowU nowA
            (ProcOutcome.exited 0 output)).2.1.sessions sid = some ssn2 ∧
          ssn2.messageRefs.length = ssn.messageRefs.length + 2) := by
  constructor
  · intro outcome hfail
    cases outcome with
    | spawnErr e => exact ⟨rfl, rfl, rfl⟩
    | procErr e => exact ⟨rfl, rfl, rfl⟩
    | timedOut sig => exact ⟨rfl, rfl, rfl⟩
    | exited code output =>
      have hcode : ¬ code = 0 := by
        simpa [isFailureOutcome] using hfail
      simp only [executeFinish, if_neg hcode]
      exact ⟨trivial, trivial, rfl⟩
  · intro output
    refine ⟨rfl, rfl, ?_⟩
    intro ssn hs
    simp only [executeFinish, if_pos rfl]
    obtain ⟨ssn1, h1, hl1⟩ := addMessage_refs_succ st sid
      { role := Role.user, content := prompt, timestamp := nowU } ssn hs
    obtain ⟨ssn2, h2, hl2⟩ := addMessage_refs_succ (addMessage st sid
      { role := Role.user, content := prompt, timestamp := nowU }).1 sid
      { role := Role.assistant, content := sanitize output, timestamp := nowA }
      ssn1 h1
    exact ⟨ssn2, h2, by omega⟩

theorem execute_atomic_commit_witness :
    isFailureOutcome (ProcOutcome.spawnErr "boom") = true ∧
    ((executeFinish ⟨[]⟩ wStore1 "s" "p" 1000 "" 0 1
        (ProcOutcome.spawnErr "boom")).1 = (⟨[]⟩ : SessionObj) ∧
      (executeFinish ⟨[]⟩ wStore1 "s" "p" 1000 "" 0 1
        (ProcOutcome.spawnErr "boom")).2.1 = wStore1 ∧
      RRes.isSuccess (executeFinish ⟨[]⟩ wStore1 "s" "p" 1000 "" 0 1
        (ProcOutcome.spawnErr "boom")).2.2 = false) ∧
    wStore1.sessions "s" = some wSrc1 ∧
    (∃ ssn2, (executeFinish ⟨[]⟩ wStore1 "s" "p" 1000 "" 0 1
        (ProcOutcome.exited 0 "ok")).2.1.sessions "s" = some ssn2 ∧
      ssn2.messageRefs.length = wSrc1.messageRefs.length + 2) :=
  ⟨by decide,
    (execute_atomic_commit ⟨[]⟩ wStore1 "s" "p" 1000 "" 0 1).1
      (ProcOutcome.spawnErr "boom") (by decide),
    by decide,
    ((execute_atomic_commit ⟨[]⟩ wStore1 "s" "p" 1000 "" 0 1).2 "ok").2.2
      wSrc1 (by decide)⟩

end ClaudeCore
